import Mathlib

/-!
Verification of the Whiteout-Survival Discord bot scripts.

This file shallowly embeds the pure computational parts of the repository's
Python scripts (`scripts/daily.py`, `scripts/daily_discord_batch.py`,
`scripts/daily_discord_batch_v2.py`, `scripts/daily_discord_batch_solver_free.py`,
`scripts/run_wos_redeem.py`, `cogs/daily_batch.py`) and proves or refutes the
specification claims about them.  Definitions come first, then the theorems.

Modelling conventions:
 - Python `dict`s with string keys are modelled as association lists
   `List (String × String)` (or `List (String × Json)`), with distinct keys
   where a claim needs the dict invariant.
 - Python's builtin `sorted` is modelled by a stable insertion sort
   `pySorted` over a boolean less-or-equal relation; Python compares strings
   lexicographically by code point, which `charListLt` implements.
 - `hashlib.md5(...).hexdigest()` is implemented bit-for-bit (RFC 1321) over
   `Nat` with explicit `% 2 ^ 32` reductions, on the UTF-8 bytes of the input.
 - Character classes of the regexes involved (`\s`, `\S`, `\d`, `\w`,
   `[A-Za-z0-9]`) are modelled over their ASCII meaning; every concrete
   input used in a proof below is ASCII.
-/

/-! ## Python string primitives -/

/-- ASCII whitespace, the characters matched by Python's `\s` and stripped by
`str.strip()`: space (32), tab (9), newline (10), vertical tab (11), form
feed (12), carriage return (13). -/
def pyIsSpace (c : Char) : Bool :=
  c.toNat = 32 || c.toNat = 9 || c.toNat = 10 || c.toNat = 11 ||
    c.toNat = 12 || c.toNat = 13

/-- `\d` / `[0-9]`: an ASCII digit (48-57). -/
def pyIsDigit (c : Char) : Bool := 48 ≤ c.toNat && c.toNat ≤ 57

/-- `[A-Za-z]`: an ASCII letter (65-90, 97-122). -/
def pyIsAlpha (c : Char) : Bool :=
  (65 ≤ c.toNat && c.toNat ≤ 90) || (97 ≤ c.toNat && c.toNat ≤ 122)

/-- Python `\w` (word character), ASCII fragment: letter, digit or `_` (95). -/
def pyIsWord (c : Char) : Bool :=
  pyIsAlpha c || pyIsDigit c || c.toNat = 95

/-- `[A-Za-z0-9]`: ASCII letter or digit. -/
def pyIsAlnum (c : Char) : Bool :=
  pyIsAlpha c || pyIsDigit c

/-- `str.upper` on one character (ASCII fragment): `a`-`z` (97-122) shift
down by 32, everything else unchanged. -/
def pyUpperChar (c : Char) : Char :=
  if 97 ≤ c.toNat && c.toNat ≤ 122 then Char.ofNat (c.toNat - 32) else c

/-- `str.lower` on one character (ASCII fragment). -/
def pyLowerChar (c : Char) : Char :=
  if 65 ≤ c.toNat && c.toNat ≤ 90 then Char.ofNat (c.toNat + 32) else c

/-- Python `str.upper()` (ASCII fragment). -/
def pyUpper (s : String) : String :=
  String.mk (s.data.map pyUpperChar)

/-- Strip ASCII whitespace from both ends of a character list. -/
def stripChars (cs : List Char) : List Char :=
  ((cs.dropWhile pyIsSpace).reverse.dropWhile pyIsSpace).reverse

/-- Python `str.strip()`: drop whitespace from both ends. -/
def pyStrip (s : String) : String :=
  String.mk (stripChars s.data)

/-- Python `str.splitlines()` on `\n`, `\r\n` and `\r` line ends (the other
Unicode line boundaries Python also splits on do not occur in the inputs
considered here).  Like Python, it yields no trailing empty line. -/
def pySplitlinesAux : List Char → List Char → List (List Char)
  | acc, [] => [acc]
  | acc, '\r' :: '\n' :: rest => acc :: pySplitlinesAux [] rest
  | acc, '\r' :: rest => acc :: pySplitlinesAux [] rest
  | acc, '\n' :: rest => acc :: pySplitlinesAux [] rest
  | acc, c :: rest => pySplitlinesAux (acc ++ [c]) rest

/-- Python `str.splitlines()`. -/
def pySplitlines (s : String) : List String :=
  if s.data = [] then []
  else
    let parts := pySplitlinesAux [] s.data
    -- a trailing line terminator produces no extra empty line in Python
    let parts := if parts.getLast? = some [] then parts.dropLast else parts
    parts.map String.mk

/-! ## Python `sorted` (stable insertion sort over a boolean relation) -/

/-- Insert `x` into `l` before the first element `y` with `r x y`. -/
def insertSorted {α : Type} (r : α → α → Bool) (x : α) : List α → List α
  | [] => [x]
  | y :: ys => if r x y then x :: y :: ys else y :: insertSorted r x ys

/-- Model of Python's builtin `sorted` for a total boolean preorder `r`
(stable, ascending). -/
def pySorted {α : Type} (r : α → α → Bool) : List α → List α
  | [] => []
  | x :: xs => insertSorted r x (pySorted r xs)

/-- Lexicographic `<` on character lists: Python's string comparison, by
code point. -/
def charListLt : List Char → List Char → Bool
  | [], [] => false
  | [], _ :: _ => true
  | _ :: _, [] => false
  | a :: as, b :: bs =>
    if a < b then true else if b < a then false else charListLt as bs

/-- Python `a < b` on strings. -/
def strLt (a b : String) : Bool := charListLt a.data b.data

/-- Python `a <= b` on strings (total order, so `¬ (b < a)`). -/
def strLe (a b : String) : Bool := !(charListLt b.data a.data)

/-- Python's comparison of `(key, value)` string pairs (tuples compare
lexicographically: first component, then second). -/
def pairLe (a b : String × String) : Bool :=
  strLt a.1 b.1 || (decide (a.1 = b.1) && strLe a.2 b.2)

/-- `≤` on pairs looking at the key only; this is the "sort by key" order the
specification describes. -/
def keyLe (a b : String × String) : Bool := strLe a.1 b.1

/-! ## MD5 (RFC 1321) over `Nat`, with explicit `% 2 ^ 32` -/

/-- UTF-8 encoding of a single scalar value, as bytes (`Nat < 256`). -/
def utf8EncodeCharNat (n : Nat) : List Nat :=
  if n < 0x80 then [n]
  else if n < 0x800 then [0xC0 + n / 0x40, 0x80 + n % 0x40]
  else if n < 0x10000 then
    [0xE0 + n / 0x1000, 0x80 + (n / 0x40) % 0x40, 0x80 + n % 0x40]
  else
    [0xF0 + n / 0x40000, 0x80 + (n / 0x1000) % 0x40,
     0x80 + (n / 0x40) % 0x40, 0x80 + n % 0x40]

/-- `s.encode("utf-8")` as a byte list. -/
def utf8Bytes (s : String) : List Nat :=
  (s.data.map (fun c => utf8EncodeCharNat c.toNat)).flatten

/-- Per-round shift amounts of MD5. -/
def md5S : List Nat :=
  [7, 12, 17, 22, 7, 12, 17, 22, 7, 12, 17, 22, 7, 12, 17, 22,
   5, 9, 14, 20, 5, 9, 14, 20, 5, 9, 14, 20, 5, 9, 14, 20,
   4, 11, 16, 23, 4, 11, 16, 23, 4, 11, 16, 23, 4, 11, 16, 23,
   6, 10, 15, 21, 6, 10, 15, 21, 6, 10, 15, 21, 6, 10, 15, 21]

/-- Per-round additive constants of MD5 (`floor (2^32 * abs (sin (i+1)))`). -/
def md5K : List Nat :=
  [0xd76aa478, 0xe8c7b756, 0x242070db, 0xc1bdceee,
   0xf57c0faf, 0x4787c62a, 0xa8304613, 0xfd469501,
   0x698098d8, 0x8b44f7af, 0xffff5bb1, 0x895cd7be,
   0x6b901122, 0xfd987193, 0xa679438e, 0x49b40821,
   0xf61e2562, 0xc040b340, 0x265e5a51, 0xe9b6c7aa,
   0xd62f105d, 0x02441453, 0xd8a1e681, 0xe7d3fbc8,
   0x21e1cde6, 0xc33707d6, 0xf4d50d87, 0x455a14ed,
   0xa9e3e905, 0xfcefa3f8, 0x676f02d9, 0x8d2a4c8a,
   0xfffa3942, 0x8771f681, 0x6d9d6122, 0xfde5380c,
   0xa4beea44, 0x4bdecfa9, 0xf6bb4b60, 0xbebfbc70,
   0x289b7ec6, 0xeaa127fa, 0xd4ef3085, 0x04881d05,
   0xd9d4d039, 0xe6db99e5, 0x1fa27cf8, 0xc4ac5665,
   0xf4292244, 0x432aff97, 0xab9423a7, 0xfc93a039,
   0x655b59c3, 0x8f0ccc92, 0xffeff47d, 0x85845dd1,
   0x6fa87e4f, 0xfe2ce6e0, 0xa3014314, 0x4e0811a1,
   0xf7537e82, 0xbd3af235, 0x2ad7d2bb, 0xeb86d391]

/-- 32-bit left rotation. -/
def leftrot (x n : Nat) : Nat :=
  ((x <<< n) % 2 ^ 32) ||| (x >>> (32 - n))

/-- 32-bit complement of a word `< 2 ^ 32`. -/
def not32 (x : Nat) : Nat := 2 ^ 32 - 1 - x

/-- Byte `i` of a byte list (0 when out of range). -/
def byteAt (l : List Nat) (i : Nat) : Nat := (l.get? i).getD 0

/-- Little-endian 32-bit word `j` of a 64-byte block. -/
def wordAt (block : List Nat) (j : Nat) : Nat :=
  byteAt block (4 * j) + 0x100 * byteAt block (4 * j + 1) +
  0x10000 * byteAt block (4 * j + 2) + 0x1000000 * byteAt block (4 * j + 3)

/-- MD5 padding: `0x80`, zeros to 56 mod 64, original bit length as eight
little-endian bytes (mod `2 ^ 64`). -/
def md5Pad (msg : List Nat) : List Nat :=
  let len := msg.length
  let bitLen := (len * 8) % 2 ^ 64
  let padZeros := (119 - len % 64) % 64
  msg ++ [0x80] ++ List.replicate padZeros 0 ++
    (List.range 8).map (fun i => (bitLen >>> (8 * i)) % 0x100)

/-- Split a byte list into 64-byte blocks (structural recursion on a fuel
bound so that the kernel can evaluate it; `fuel = bs.length` always
suffices since every step consumes at least one byte). -/
def toBlocksFuel : Nat → List Nat → List (List Nat)
  | 0, _ => []
  | _, [] => []
  | fuel + 1, bs => bs.take 64 :: toBlocksFuel fuel (bs.drop 64)

/-- Split a byte list into 64-byte blocks. -/
def toBlocks (bs : List Nat) : List (List Nat) :=
  toBlocksFuel bs.length bs

/-- One MD5 round `i` (0-based) on state `(a, b, c, d)`. -/
def md5Round (block : List Nat) (st : Nat × Nat × Nat × Nat) (i : Nat) :
    Nat × Nat × Nat × Nat :=
  let a := st.1; let b := st.2.1; let c := st.2.2.1; let d := st.2.2.2
  let fg : Nat × Nat :=
    if i < 16 then ((b &&& c) ||| (not32 b &&& d), i)
    else if i < 32 then ((d &&& b) ||| (not32 d &&& c), (5 * i + 1) % 16)
    else if i < 48 then (b ^^^ c ^^^ d, (3 * i + 5) % 16)
    else (c ^^^ (b ||| not32 d), (7 * i) % 16)
  let f := (fg.1 + a + md5K.getD i 0 + wordAt block fg.2) % 2 ^ 32
  (d, (b + leftrot f (md5S.getD i 0)) % 2 ^ 32, b, c)

/-- Process one 64-byte block. -/
def md5Block (st : Nat × Nat × Nat × Nat) (block : List Nat) :
    Nat × Nat × Nat × Nat :=
  let r := (List.range 64).foldl (md5Round block) st
  ((st.1 + r.1) % 2 ^ 32, (st.2.1 + r.2.1) % 2 ^ 32,
   (st.2.2.1 + r.2.2.1) % 2 ^ 32, (st.2.2.2 + r.2.2.2) % 2 ^ 32)

/-- Lowercase hex digit. -/
def hexDigit (n : Nat) : Char :=
  if n < 10 then Char.ofNat (48 + n) else Char.ofNat (87 + n)

/-- Two lowercase hex digits of a byte. -/
def byteHex (b : Nat) : String :=
  String.mk [hexDigit (b / 16), hexDigit (b % 16)]

/-- The eight hex digits of a 32-bit word, bytes in little-endian order. -/
def wordHexLE (x : Nat) : String :=
  byteHex (x % 0x100) ++ byteHex ((x >>> 8) % 0x100) ++
  byteHex ((x >>> 16) % 0x100) ++ byteHex ((x >>> 24) % 0x100)

/-- MD5 hex digest of a byte list. -/
def md5Bytes (msg : List Nat) : String :=
  let st := (toBlocks (md5Pad msg)).foldl md5Block
    (0x67452301, 0xefcdab89, 0x98badcfe, 0x10325476)
  wordHexLE st.1 ++ wordHexLE st.2.1 ++ wordHexLE st.2.2.1 ++ wordHexLE st.2.2.2

/-- `hashlib.md5(s.encode("utf-8")).hexdigest()`, the `md5` helper every
script defines. -/
def md5 (s : String) : String := md5Bytes (utf8Bytes s)

set_option maxRecDepth 100000

/-! ## The signing functions

`scripts/daily_discord_batch.py` line 122, `cogs/daily_batch.py` line 35,
`scripts/daily_discord_batch_v2.py` line 131 and
`scripts/daily_discord_batch_v3.py` line 141 all define the identical

    def sign_sorted(form: dict, secret: str) -> str:
        items = sorted((k, str(v)) for k, v in form.items())
        base  = "&".join([f"k=v" for k, v in items])
        return md5(base + secret)

`scripts/run_wos_redeem.py` line 21 and
`scripts/daily_discord_batch_solver_free.py` line 127 are the same function
with the secret taken from the enclosing scope (run_wos_redeem additionally
returns the base string).  Forms are modelled as association lists of
string keys and string values (the claims quantify over string-valued
forms, so the `str(v)` coercion is the identity). -/

/-- Python `"&".join(parts)`. -/
def joinAmp : List String → String
  | [] => ""
  | [p] => p
  | p :: rest => p ++ "&" ++ joinAmp rest

/-- Python `"&".join(f"k=v" ...)`: join the pairs as `k=v` with `&`. -/
def joinKV (items : List (String × String)) : String :=
  joinAmp (items.map (fun kv => kv.1 ++ "=" ++ kv.2))

/-- `sign_sorted(form, secret)`: sort the `(k, str(v))` pairs (Python tuple
order: key first, then value), join as `k=v` with `&`, append the secret,
MD5. -/
def sign_sorted (form : List (String × String)) (secret : String) : String :=
  md5 (joinKV (pySorted pairLe form) ++ secret)

/-- The digest described by the specification's words for C1: "the MD5 hex
digest of the string obtained by sorting the (key, value) pairs by key,
joining them as key=value with &, and appending the secret". -/
def specSignSorted (form : List (String × String)) (secret : String) : String :=
  md5 (joinKV (pySorted keyLe form) ++ secret)

/-- `sign_with_captcha` from `scripts/daily_discord_batch_solver_free.py`
lines 123-125: the base string is the fixed, unsorted order
`fid=..&cdk=..&captcha_code=..&time=..`. -/
def sign_with_captcha (fid cdk captcha ts_ms secret : String) : String :=
  md5 ("fid=" ++ fid ++ "&cdk=" ++ cdk ++ "&captcha_code=" ++ captcha ++
    "&time=" ++ ts_ms ++ secret)

/-- `build_sign` from `scripts/daily_discord_batch_v2.py` lines 136-152.
The `order` argument chooses between sorting the pieces and the fixed order
`fid, cdk, time` (plus an optional trailing `lang`); `concatMode` chooses how
the secret is attached; `uppercase` upper-cases the digest. -/
def build_sign (fid cdk ts_value secret : String) (order concatMode : String)
    (uppercase include_lang : Bool) : String :=
  let pieces : List (String × String) :=
    [("fid", fid), ("cdk", cdk), ("time", ts_value)] ++
      (if include_lang then [("lang", "en")] else [])
  let items :=
    if order = "sorted" then pySorted pairLe pieces
    else
      [("fid", fid), ("cdk", cdk), ("time", ts_value)] ++
        (if include_lang then [("lang", "en")] else [])
  let base := joinKV items
  let s :=
    if concatMode = "amp" then base ++ "&" ++ secret
    else if concatMode = "key" then base ++ "&key=" ++ secret
    else if concatMode = "prefix" then secret ++ base
    else base ++ secret
  let d := md5 s
  if uppercase then pyUpper d else d

/-! ## `md5sign` from `scripts/daily.py` lines 29-38 and the dict model

    def md5sign(data: dict) -> dict:
        parts = []
        for k in sorted(data.keys()):
            v = data[k]
            if isinstance(v, dict): v = json.dumps(...)
            parts.append(f"k=v")
        encoded = "&".join(parts)
        sign = hashlib.md5((encoded + WOS_SECRET).encode("utf-8")).hexdigest()
        return dict with "sign" first, then all of data

The claims quantify over string-valued dicts, so the `isinstance(v, dict)`
branch is never taken.  The result dict `\x7b"sign": sign, **data\x7d` is
modelled by starting from the one-entry dict `[("sign", sign)]` and setting
each `data` entry in order (a set replaces an existing key in place, else
appends), which is exactly Python's dict-display semantics: in particular a
`"sign"` key already in `data` overwrites the computed digest. -/

/-- The keys of an association-list dict, in order. -/
def keysOf (d : List (String × String)) : List String := d.map Prod.fst

/-- First-match lookup in an association-list dict. -/
def lookupStr (d : List (String × String)) (k : String) : Option String :=
  match d with
  | [] => none
  | kv :: rest => if kv.1 = k then some kv.2 else lookupStr rest k

/-- `d[k] = v` on a dict: replace the entry in place if the key exists
(keys are unique in a dict, so replacing the first match is Python's
behaviour), else append at the end. -/
def dictSet (d : List (String × String)) (k v : String) :
    List (String × String) :=
  match d with
  | [] => [(k, v)]
  | kv :: rest => if kv.1 = k then (k, v) :: rest else kv :: dictSet rest k v

/-- `md5sign(data)` of `scripts/daily.py`, with the `WOS_SECRET` environment
value as the `secret` parameter. -/
def md5sign (data : List (String × String)) (secret : String) :
    List (String × String) :=
  let parts := (pySorted strLe (keysOf data)).map
    (fun k => k ++ "=" ++ ((lookupStr data k).getD ""))
  let encoded := joinAmp parts
  let signVal := md5 (encoded ++ secret)
  data.foldl (fun acc kv => dictSet acc kv.1 kv.2) [("sign", signVal)]

/-! ## A small JSON model

The vendor responses are decoded with `json.loads` / `r.json()`.  Scalars
and (nested) objects are modelled; arrays are not, as none of the fields the
scripts read (`msg`, `data`, `fid`, `nickname`, `furnace_lv`, `stove_lv`)
is ever treated as an array by the code under verification. -/

/-- A scalar JSON value. -/
inductive JVal where
  | null
  | bool (b : Bool)
  | num (n : Int)
  | str (s : String)
deriving DecidableEq, Repr

/-- A JSON value: a scalar or an object. -/
inductive Json where
  | scalar (v : JVal)
  | obj (fields : List (String × Json))
deriving Repr

/-- `dict.get(k)` on a decoded JSON object: first match or `None`. -/
def objGet (fields : List (String × Json)) (k : String) : Option Json :=
  match fields with
  | [] => none
  | kv :: rest => if kv.1 = k then some kv.2 else objGet rest k

/-- Python truthiness of a decoded JSON value (`None`, `False`, `0`, `""`
and the empty dict are falsy). -/
def pyTruthy (j : Json) : Bool :=
  match j with
  | Json.scalar JVal.null => false
  | Json.scalar (JVal.bool b) => b
  | Json.scalar (JVal.num n) => decide (n ≠ 0)
  | Json.scalar (JVal.str s) => decide (s ≠ "")
  | Json.obj fields => !fields.isEmpty

/-- Python `str()` of a scalar JSON value. -/
def pyStr (v : JVal) : String :=
  match v with
  | JVal.null => "None"
  | JVal.bool true => "True"
  | JVal.bool false => "False"
  | JVal.num n => toString n
  | JVal.str s => s

/-- Digits to the number they spell (most significant first). -/
def natFromDigits (ds : List Char) : Nat :=
  ds.foldl (fun acc c => acc * 10 + (c.toNat - 48)) 0

/-- Python `int(s)` on a string: optional surrounding whitespace, optional
sign, a nonempty digit run; everything else raises `ValueError`
(`Except.error`).  (Underscore digit separators are not modelled.) -/
def pyIntOfString (s : String) : Except Unit Int :=
  let cs := s.data.dropWhile pyIsSpace
  let sc : Int × List Char :=
    match cs with
    | '+' :: rest => (1, rest)
    | '-' :: rest => (-1, rest)
    | _ => (1, cs)
  let digits := sc.2.takeWhile pyIsDigit
  let rest := sc.2.dropWhile pyIsDigit
  if digits.isEmpty || !(rest.all pyIsSpace) then Except.error ()
  else Except.ok (sc.1 * (natFromDigits digits : Int))

/-- Python `int(v)` of a scalar JSON value: ints unchanged, bools 0/1,
numeric strings parsed, `None` a `TypeError`. -/
def pyIntJVal (v : JVal) : Except Unit Int :=
  match v with
  | JVal.num n => Except.ok n
  | JVal.bool b => Except.ok (if b then 1 else 0)
  | JVal.str s => pyIntOfString s
  | JVal.null => Except.error ()

/-! ## `fetch_player` from `scripts/daily.py` lines 138-154 -/

/-- The player-status record `fetch_player` builds on success. -/
structure Player where
  fid : String
  nickname : String
  furnace_lv : Int
deriving DecidableEq, Repr

/-- `str(d.get("fid", fid))`: the `fid` argument when the field is missing,
otherwise `str()` of the value.  `str()` of a nested object (Python would
print the dict repr) is not modelled; no claim depends on it. -/
def getFidField (dfields : List (String × Json)) (fid : String) :
    Except Unit String :=
  match objGet dfields ("fid") with
  | none => Except.ok fid
  | some (Json.scalar v) => Except.ok (pyStr v)
  | some (Json.obj _) => Except.error ()

/-- `(d.get("nickname") or "").strip()`: empty for a missing or falsy value,
stripped for a string, a raised `AttributeError` for a truthy non-string. -/
def getNickField (dfields : List (String × Json)) : Except Unit String :=
  match objGet dfields ("nickname") with
  | none => Except.ok ""
  | some v =>
    if pyTruthy v then
      match v with
      | Json.scalar (JVal.str s) => Except.ok (pyStrip s)
      | _ => Except.error ()
    else Except.ok ""

/-- `int(d.get("furnace_lv", 0))`: 0 when missing, else `int()` of the
scalar value; raises on `None`, non-numeric strings and nested objects. -/
def getFurnaceField (dfields : List (String × Json)) : Except Unit Int :=
  match objGet dfields ("furnace_lv") with
  | none => Except.ok 0
  | some (Json.scalar v) => pyIntJVal v
  | some (Json.obj _) => Except.error ()

/-- `fetch_player(fid)` of `scripts/daily.py`, from the decoded response
onwards.  `respBody = none` models a body `r.json()` fails to decode: the
code then substitutes the dict with only `status` and `text` keys.  A raised
exception in the dynamically-typed field accesses is `Except.error ()`. -/
def fetch_player (fid : String) (respBody : Option Json) (statusCode : Int)
    (text : String) : Except Unit (Option Player) :=
  let j : Json :=
    match respBody with
    | some j => j
    | none => Json.obj [("status", Json.scalar (JVal.num statusCode)),
                        ("text", Json.scalar (JVal.str text))]
  match j with
  | Json.scalar _ => Except.ok none
  | Json.obj fields =>
    match objGet fields ("msg"), objGet fields ("data") with
    | some (Json.scalar (JVal.str m)), some dval =>
      if m = "success" then
        match dval with
        | Json.obj dfields =>
          match getFidField dfields fid with
          | Except.error _ => Except.error ()
          | Except.ok fidv =>
            match getNickField dfields with
            | Except.error _ => Except.error ()
            | Except.ok nick =>
              match getFurnaceField dfields with
              | Except.error _ => Except.error ()
              | Except.ok furn =>
                Except.ok (some
                  { fid := fidv, nickname := nick, furnace_lv := furn })
        | Json.scalar _ => Except.error ()
      else Except.ok none
    | _, _ => Except.ok none

/-! ## The Discord-message parsers

`scripts/daily_discord_batch.py` lines 88-112 and `cogs/daily_batch.py`
lines 25-29 / 82-100 define the identical regexes and parsers

    YAML_CODES = (?mi)^\s*codes\s*:\s*$      YAML_FIDS = (?mi)^\s*fids\s*:\s*$
    BULLET     = (?m)^\s*-\s*(\S+)\s*$
    CSV_CODE   = (?mi)^\s*([A-Za-z0-9]\x7b4,24\x7d)\s*$
    CSV_FID    = (?mi)^\s*(\d\x7b6,12\x7d)\s*$

applied per line with `re.match` (anchored at the line start; the lines come
from `str.splitlines()` and carry no terminator, so `$` is the line end).
Each regex model below is the line-set the anchored pattern accepts:
 * `^\s*WORD\s*:\s*$` accepts exactly: spaces, the word (case-insensitive),
   spaces, `:`, spaces.
 * `^\s*-\s*(\S+)\s*$`: the greedy `\S+` takes the maximal non-space run
   and `\s*$` forces everything after it to be spaces; shorter backtracked
   matches still leave a non-space character for `\s*$`, so the line must
   be spaces, `-`, spaces, one non-space token, spaces.
 * `^\s*(RUN\x7bm,n\x7d)\s*$` likewise accepts exactly the lines whose
   stripped content is a run of the character class of length `m..n`
   (a longer run cannot match: the leftover characters are in the class,
   hence non-space, and backtracking only shortens the group). -/

/-- `re.match` of `^\s*WORD\s*:\s*$` (case-insensitively) on one line. -/
def yamlHeaderLine (word : String) (line : String) : Bool :=
  let cs := line.data.dropWhile pyIsSpace
  let w := word.data
  ((cs.take w.length).map pyLowerChar = w : Bool) &&
    (match (cs.drop w.length).dropWhile pyIsSpace with
     | ':' :: rest => rest.all pyIsSpace
     | _ => false)

/-- `re.match` of `BULLET = ^\s*-\s*(\S+)\s*$` on one line, returning the
group. -/
def BULLET_match (line : String) : Option String :=
  match line.data.dropWhile pyIsSpace with
  | [] => none
  | c :: cs2 =>
    if c = '-' then
      let cs3 := cs2.dropWhile pyIsSpace
      let tok := cs3.takeWhile (fun c => !pyIsSpace c)
      let rest := cs3.dropWhile (fun c => !pyIsSpace c)
      if tok.isEmpty || !(rest.all pyIsSpace) then none
      else some (String.mk tok)
    else none

/-- `re.match` of `^\s*(CLASS\x7bminLen,maxLen\x7d)\s*$` on one line,
returning the group. -/
def csvToken (minLen maxLen : Nat) (good : Char → Bool) (line : String) :
    Option String :=
  let t := stripChars line.data
  if t.all good && decide (minLen ≤ t.length) && decide (t.length ≤ maxLen)
  then some (String.mk t)
  else none

/-- `CSV_CODE.match(line)`: 4-24 ASCII letters or digits. -/
def CSV_CODE_match (line : String) : Option String :=
  csvToken 4 24 pyIsAlnum line

/-- `CSV_FID.match(line)`: 6-12 ASCII digits. -/
def CSV_FID_match (line : String) : Option String :=
  csvToken 6 12 pyIsDigit line

/-- `set.add`: append unless already present (iteration order of Python
sets is unspecified; the claims below only use membership). -/
def addIfNew (out : List String) (x : String) : List String :=
  if x ∈ out then out else out ++ [x]

/-- One line of `parse_codes` (`daily_discord_batch.py` lines 94-102,
identical to `DailyBatch._parse_codes`): a `codes:` header switches the
section; a bullet under `codes:` is added stripped and upper-cased;
otherwise a CSV_CODE line is added upper-cased. -/
def parseCodesStep (st : List String × Option String) (line : String) :
    List String × Option String :=
  if yamlHeaderLine ("codes") line then (st.1, some ("codes"))
  else
    match BULLET_match line with
    | some g =>
      if st.2 = some ("codes") then
        (addIfNew st.1 (pyUpper (pyStrip g)), st.2)
      else
        match CSV_CODE_match line with
        | some t => (addIfNew st.1 (pyUpper t), st.2)
        | none => st
    | none =>
      match CSV_CODE_match line with
      | some t => (addIfNew st.1 (pyUpper t), st.2)
      | none => st

/-- `parse_codes(text)` (the set as a duplicate-free list). -/
def parse_codes (text : String) : List String :=
  ((pySplitlines text).foldl parseCodesStep ([], none)).1

/-- One line of `parse_fids` (`daily_discord_batch.py` lines 104-112,
identical to `DailyBatch._parse_fids`): a `fids:` header switches the
section; a bullet under `fids:` is added stripped; otherwise a CSV_FID
line is added. -/
def parseFidsStep (st : List String × Option String) (line : String) :
    List String × Option String :=
  if yamlHeaderLine ("fids") line then (st.1, some ("fids"))
  else
    match BULLET_match line with
    | some g =>
      if st.2 = some ("fids") then (addIfNew st.1 (pyStrip g), st.2)
      else
        match CSV_FID_match line with
        | some t => (addIfNew st.1 t, st.2)
        | none => st
    | none =>
      match CSV_FID_match line with
      | some t => (addIfNew st.1 t, st.2)
      | none => st

/-- `parse_fids(text)` (the set as a duplicate-free list). -/
def parse_fids (text : String) : List String :=
  ((pySplitlines text).foldl parseFidsStep ([], none)).1

/-! ## `parse_fids_from_messages` from `scripts/daily.py` lines 97-112

`FID_RE = \b\d\x7b3,18\x7d\b`.  `FID_RE.findall(text)` returns exactly the
maximal digit runs of length 3-18 whose neighbours are word-boundary
compatible: the character before the run (if any) is a non-word character
and so is the character after it.  (A digit run preceded or followed by a
word character cannot match: `\b` fails there, and starting inside the run
puts a digit - a word character - on the left.  A maximal run longer than
18 yields nothing: the greedy group stops at 18 but then `\b` sits between
two digits.)  The scanner below walks the text once, carrying whether the
previous character was a word character. -/

/-- `FID_RE.findall`, fuelled structural recursion (`fuel = cs.length`
suffices: every step consumes at least one character). -/
def fidScanFuel : Nat → Bool → List Char → List String
  | 0, _, _ => []
  | fuel + 1, prevWord, cs =>
    match cs with
    | [] => []
    | c :: rest =>
      if pyIsDigit c && !prevWord then
        let run := (c :: rest).takeWhile pyIsDigit
        let rest2 := (c :: rest).dropWhile pyIsDigit
        let keep := (match rest2 with
          | [] => true
          | d :: _ => !pyIsWord d) &&
          decide (3 ≤ run.length) && decide (run.length ≤ 18)
        if keep then String.mk run :: fidScanFuel fuel true rest2
        else fidScanFuel fuel true rest2
      else fidScanFuel fuel (pyIsWord c) rest

/-- `FID_RE.findall(text)`. -/
def fidScan (text : String) : List String :=
  fidScanFuel text.data.length false text.data

/-- `text.startswith("#")`. -/
def pyStartsHash (s : String) : Bool :=
  match s.data with
  | '#' :: _ => true
  | _ => false

/-- The `key=lambda x: int(x)` order used by `sorted` in
`parse_fids_from_messages`; the elements are digit strings. -/
def fidNumLe (a b : String) : Bool :=
  decide (natFromDigits a.data ≤ natFromDigits b.data)

/-- `parse_fids_from_messages(msgs)` from `scripts/daily.py`: each message
contributes the FID_RE tokens of its stripped content unless it starts with
`#`; the set is returned sorted by numeric value.  A message is modelled by
its `content` field (`none` for a missing or null content; the `author.bot`
check in the source is a no-op). -/
def parse_fids_from_messages (msgs : List (Option String)) : List String :=
  let fids := msgs.foldl
    (fun out mc =>
      let text := pyStrip (mc.getD "")
      if pyStartsHash text then out
      else (fidScan text).foldl addIfNew out)
    []
  pySorted fidNumLe fids

/-- The token property every `parse_fids` element satisfies: a nonempty
whitespace-free string. -/
def fidTokenOk (f : String) : Prop :=
  f ≠ "" ∧ f.data.all (fun c => !pyIsSpace c) = true

/-- The property of every `FID_RE.findall` token: a digit run of length
3-18. -/
def fidRegexOk (f : String) : Prop :=
  f.data.all pyIsDigit = true ∧ 3 ≤ f.length ∧ f.length ≤ 18

/-! ## Furnace-level reporting (C4)

Three places read the stove/furnace level:
 * `scripts/daily.py` lines 156-165 (`summarize_diffs`): appends a change
   entry whenever `int(now["furnace_lv"]) != int(before.get("furnace_lv", 0))`
   - in either direction;
 * `cogs/daily_batch.py` lines 206-211: appends a furnace-up line only when
   `prev_stove is not None and stove is not None and int(stove) > int(prev_stove)`
   (inside `try/except: pass`);
 * `scripts/daily_discord_batch.py` lines 379-383: the same strict `>`
   condition with the previous value taken from the roster JSON. -/

/-- First-match lookup in an association list (`prev.get(fid)`). -/
def alookup {β : Type} (d : List (String × β)) (k : String) : Option β :=
  match d with
  | [] => none
  | kv :: rest => if kv.1 = k then some kv.2 else alookup rest k

/-- A loaded snapshot record in `scripts/daily.py` (fields may be absent in
an old snapshot: `before.get(...)`). -/
structure PrevRec where
  nickname : Option String
  furnace_lv : Option Int
deriving DecidableEq, Repr

/-- The `furnace_changes` list built by `summarize_diffs` (`daily.py` lines
157-165): for each current player with a previous record, an entry
`(old, new, nickname, fid)` whenever the level differs.  `prev.get(fid)`
being falsy (absent) skips the player. -/
def furnace_changes (prev : List (String × PrevRec))
    (curr : List (String × Player)) : List (Int × Int × String × String) :=
  curr.foldl
    (fun acc fidnow =>
      match alookup prev fidnow.1 with
      | none => acc
      | some before =>
        if fidnow.2.furnace_lv ≠ before.furnace_lv.getD 0 then
          acc ++ [(before.furnace_lv.getD 0, fidnow.2.furnace_lv,
            fidnow.2.nickname, fidnow.1)]
        else acc)
    []

/-- Python `int(j)` of a decoded JSON value (objects raise `TypeError`). -/
def pyIntJson (j : Json) : Except Unit Int :=
  match j with
  | Json.scalar v => pyIntJVal v
  | Json.obj _ => Except.error ()

/-- The combined `x is not None` guard and `int(x)` conversion under the
`try/except: pass` of the furnace-diff code: `none` when the value is
`None` (JSON null) or `int()` raises, in which case no line is appended. -/
def stoveIntOk (v : Json) : Option Int :=
  match v with
  | Json.scalar JVal.null => none
  | _ =>
    match pyIntJson v with
    | Except.ok s => some s
    | Except.error _ => none

/-- Whether `cogs/daily_batch.py` lines 206-211 append a furnace-up line,
given the sqlite `prev_stove` (int or NULL) and the `data.get("stove_lv")`
value (`none` when the key is missing). -/
def cogFurnaceUp (prev_stove : Option Int) (stove : Option Json) : Bool :=
  match prev_stove, stove with
  | some p, some v =>
    match stoveIntOk v with
    | some s => decide (s > p)
    | none => false
  | _, _ => false

/-- Whether `scripts/daily_discord_batch.py` lines 379-383 append a
furnace-up line, given `rec.get("stove")` from the roster JSON and
`data.get("stove_lv")` from the response. -/
def ddbFurnaceUp (prev stove : Option Json) : Bool :=
  match prev, stove with
  | some pv, some sv =>
    match stoveIntOk sv, stoveIntOk pv with
    | some s, some p => decide (s > p)
    | _, _ => false
  | _, _ => false

/-! ## The daily-batch redeem loop (C7)

`cogs/daily_batch.py` lines 218-240: for each code in `sorted(codes)` and
each fid in `sorted(all_fids)` one request is posted, its response message
is classified, and exactly one of `ok_redeems`/`fail_redeems` is
incremented - `ok` precisely when the final status is `SUCCESS`, `ALREADY`
or `SAME_TYPE`.  The module-level loop of `scripts/daily_discord_batch.py`
lines 396-451 has the same shape (its per-pair status comes from up to four
browser attempts); both are covered by taking the per-pair final status as
a function `statusOf`. -/

/-- Does the haystack start with the needle? -/
def startsWithChars : List Char → List Char → Bool
  | [], _ => true
  | _ :: _, [] => false
  | a :: as, b :: bs => a = b && startsWithChars as bs

/-- Does the needle occur as a contiguous run in the haystack? -/
def containsChars (needle : List Char) : List Char → Bool
  | [] => needle.isEmpty
  | c :: rest => startsWithChars needle (c :: rest) || containsChars needle rest

/-- Python `needle in haystack` on strings. -/
def strContains (haystack needle : String) : Bool :=
  containsChars needle.data haystack.data

/-- The classification chain of `cogs/daily_batch.py` lines 224-235 from
the decoded `/api/gift_code` response (`none`: `json.loads` raised). -/
def classifyRedeem (body : Option Json) : String :=
  match body with
  | none => "PARSE_ERROR"
  | some (Json.scalar _) => "PARSE_ERROR"
  | some (Json.obj fields) =>
    match (match objGet fields ("msg") with
           | none => some ""
           | some v =>
             if pyTruthy v then
               match v with
               | Json.scalar (JVal.str s) => some (pyUpper s)
               | _ => none
             else some "") with
    | none => "PARSE_ERROR"
    | some msg =>
      if strContains msg ("SUCCESS") then "SUCCESS"
      else if strContains msg ("RECEIVED") then "ALREADY"
      else if strContains msg ("SAME TYPE EXCHANGE") then "SAME_TYPE"
      else if strContains msg ("TIME ERROR") then "EXPIRED"
      else if strContains msg ("CDK NOT FOUND") then "INVALID"
      else if strContains msg ("PARAMS") then "PARAMS_ERROR"
      else if msg = "" then "UNKNOWN" else msg

/-- The statuses counted as a successful redeem. -/
def okStatuses : List String := ["SUCCESS", "ALREADY", "SAME_TYPE"]

/-- One `(code, fid)` iteration of the redeem loop: exactly one counter is
incremented and one result line appended. -/
def redeemPairStep (statusOf : String → String → String) (code : String)
    (acc : Nat × Nat × List String) (fid : String) : Nat × Nat × List String :=
  let status := statusOf code fid
  let ok := decide (status ∈ okStatuses)
  (acc.1 + (if ok then 1 else 0), acc.2.1 + (if ok then 0 else 1),
   acc.2.2 ++ [(if ok then ("✅") else ("❌")) ++ " " ++ fid ++ " • " ++
     code ++ " • " ++ status])

/-- The redeem loop: `(ok_redeems, fail_redeems, redeem_lines)` after
iterating all codes × all roster fids in sorted order. -/
def redeem_loop (codes fids : List String)
    (statusOf : String → String → String) : Nat × Nat × List String :=
  (pySorted strLe codes).foldl
    (fun acc code =>
      (pySorted strLe fids).foldl (redeemPairStep statusOf code) acc)
    (0, 0, [])

/-! ## `discord_post` chunking (C9, `scripts/daily.py` lines 81-94) -/

/-- The `while content: chunks.append(content[:1900]); content = content[1900:]`
loop (fuelled structural recursion; `fuel = cs.length` suffices). -/
def chunk1900Fuel : Nat → List Char → List (List Char)
  | 0, _ => []
  | _, [] => []
  | fuel + 1, cs => cs.take 1900 :: chunk1900Fuel fuel (cs.drop 1900)

/-- `discord_post(channel_id, content)`: the list of message bodies posted.
Nothing is posted when either argument is empty (falsy). -/
def discord_post (channel_id content : String) : List String :=
  if channel_id = "" || content = "" then []
  else (chunk1900Fuel content.data.length content.data).map String.mk

/-! ## Checkpoint update (C10)

`scripts/daily_discord_batch.py` lines 318/336 and 319/351 (saved at
454-456) and `cogs/daily_batch.py` lines 145-163: starting from the loaded
checkpoint, `last = max(last, int(m["id"]))` over every message read, and
the final value is stored. -/

/-- The checkpoint value written back: the fold of `max` over the ids of
the messages read, starting from the loaded checkpoint. -/
def checkpointFold (loaded : Nat) (ids : List Nat) : Nat :=
  ids.foldl (fun last i => max last i) loaded

/-! ## C9 -/

/-- Python `"".join` of the chunk list (the chunks are posted in order). -/
def concatStrings (l : List String) : String :=
  l.foldl (fun r s => r ++ s) ""

/-- Sanity anchor: the RFC 1321 test vector for the empty string. -/
theorem md5_empty : md5 ("") = "d41d8cd98f00b204e9800998ecf8427e" := by decide

/-- Sanity anchor: the RFC 1321 test vector for "abc". -/
theorem md5_abc : md5 ("abc") = "900150983cd24fb0d6963f7d28e17f72" := by decide

/-! ## Helper lemmas about `pySorted` -/

theorem stringExt {s t : String} (h : s.data = t.data) : s = t := by
  cases s; cases t; exact congrArg String.mk h

theorem charListLt_irrefl : ∀ x : List Char, charListLt x x = false := by
  intro x
  induction x with
  | nil => rfl
  | cons a as ih => simp [charListLt, lt_irrefl, ih]

theorem charListLt_total_ne :
    ∀ x y : List Char, x ≠ y → charListLt x y = !charListLt y x := by
  intro x
  induction x with
  | nil =>
    intro y hy
    cases y with
    | nil => exact absurd rfl hy
    | cons b bs => rfl
  | cons a as ih =>
    intro y hy
    cases y with
    | nil => rfl
    | cons b bs =>
      simp only [charListLt]
      rcases lt_trichotomy a b with hab | hab | hab
      · simp only [if_pos hab, if_neg (lt_asymm hab), Bool.not_false]
      · subst hab
        simp only [if_neg (lt_irrefl a)]
        have has : as ≠ bs := by
          intro hh; exact hy (by rw [hh])
        exact ih bs has
      · simp only [if_neg (lt_asymm hab), if_pos hab, Bool.not_true]

theorem mem_insertSorted {α : Type} (r : α → α → Bool) (x : α) (l : List α)
    (a : α) : a ∈ insertSorted r x l ↔ a = x ∨ a ∈ l := by
  induction l with
  | nil => simp [insertSorted]
  | cons y ys ih =>
    simp only [insertSorted]
    by_cases hr : r x y = true
    · simp [hr, List.mem_cons]
    · simp only [Bool.not_eq_true] at hr
      simp only [hr, Bool.false_eq_true, if_false, List.mem_cons, ih]
      tauto

theorem mem_pySorted {α : Type} (r : α → α → Bool) (l : List α) (a : α) :
    a ∈ pySorted r l ↔ a ∈ l := by
  induction l with
  | nil => simp [pySorted]
  | cons x xs ih =>
    simp only [pySorted, mem_insertSorted, List.mem_cons, ih]

theorem length_insertSorted {α : Type} (r : α → α → Bool) (x : α)
    (l : List α) : (insertSorted r x l).length = l.length + 1 := by
  induction l with
  | nil => rfl
  | cons y ys ih =>
    simp only [insertSorted]
    by_cases hr : r x y = true
    · simp [hr]
    · simp only [Bool.not_eq_true] at hr
      simp [hr, ih]

theorem length_pySorted {α : Type} (r : α → α → Bool) (l : List α) :
    (pySorted r l).length = l.length := by
  induction l with
  | nil => rfl
  | cons x xs ih => simp [pySorted, length_insertSorted, ih]

theorem insertSorted_congr {α : Type} (r r' : α → α → Bool) (x : α)
    (l : List α) (h : ∀ y ∈ l, r x y = r' x y) :
    insertSorted r x l = insertSorted r' x l := by
  induction l with
  | nil => rfl
  | cons y ys ih =>
    simp only [insertSorted, h y (List.mem_cons_self y ys)]
    by_cases hr : r' x y = true
    · simp [hr]
    · simp only [Bool.not_eq_true] at hr
      simp only [hr, Bool.false_eq_true, if_false, List.cons.injEq, true_and]
      exact ih (fun z hz => h z (List.mem_cons_of_mem y hz))

theorem pySorted_congr {α : Type} (r r' : α → α → Bool) (l : List α)
    (h : ∀ a ∈ l, ∀ b ∈ l, r a b = r' a b) :
    pySorted r l = pySorted r' l := by
  induction l with
  | nil => rfl
  | cons x xs ih =>
    simp only [pySorted]
    rw [ih (fun a ha b hb =>
      h a (List.mem_cons_of_mem x ha) b (List.mem_cons_of_mem x hb))]
    apply insertSorted_congr
    intro y hy
    exact h x (List.mem_cons_self x xs) y
      (List.mem_cons_of_mem x ((mem_pySorted r' xs y).mp hy))

theorem pairLe_self (a : String × String) : pairLe a a = keyLe a a := by
  simp [pairLe, keyLe, strLt, strLe, charListLt_irrefl]

theorem pairLe_of_key_ne {a b : String × String} (h : a.1 ≠ b.1) :
    pairLe a b = keyLe a b := by
  simp only [pairLe, keyLe, decide_eq_false h, Bool.false_and, Bool.or_false,
    strLt, strLe]
  exact charListLt_total_ne _ _ (fun hh => h (stringExt hh))

/-- With pairwise-distinct keys (the dict invariant), sorting the pairs the
way Python's `sorted` compares tuples coincides with sorting by key. -/
theorem pySorted_pairLe_eq_keyLe (form : List (String × String))
    (hkeys : form.Pairwise (fun p q => p.1 ≠ q.1)) :
    pySorted pairLe form = pySorted keyLe form := by
  apply pySorted_congr
  intro a ha b hb
  by_cases hab : a = b
  · subst hab; exact pairLe_self a
  · exact pairLe_of_key_ne
      (List.Pairwise.forall (fun _ _ hpq => hpq.symm) hkeys ha hb hab)

/-! ## C1 and C2 -/

/-- C1: for every string-valued form with distinct keys and every secret,
`sign_sorted(form, secret)` is the MD5 hex digest of the string obtained by
sorting the (key, value) pairs by key, joining them as `key=value` with `&`,
and appending the secret. -/
theorem sign_sorted_matches_spec (form : List (String × String))
    (secret : String) (hkeys : form.Pairwise (fun p q => p.1 ≠ q.1)) :
    sign_sorted form secret = specSignSorted form secret := by
  unfold sign_sorted specSignSorted
  rw [pySorted_pairLe_eq_keyLe form hkeys]

/-- Witness for C1 at the player-endpoint form and the default secret of
`scripts/daily.py`. -/
theorem sign_sorted_matches_spec_witness :
    ([("time", "1700000000"), ("fid", "12345678")] :
        List (String × String)).Pairwise (fun p q => p.1 ≠ q.1) ∧
    sign_sorted [("time", "1700000000"), ("fid", "12345678")]
        ("tB87#kPtkxqOS2") =
      specSignSorted [("time", "1700000000"), ("fid", "12345678")]
        ("tB87#kPtkxqOS2") :=
  ⟨by decide, sign_sorted_matches_spec _ _ (by decide)⟩

/-- C2 counterexample: the digest `sign_with_captcha` attaches in
`scripts/daily_discord_batch_solver_free.py` is not computed over the
parameters in sorted key order — at this concrete input it differs from the
digest over the same parameters sorted by key. -/
theorem sign_with_captcha_not_sorted :
    sign_with_captcha ("100") ("AAAA") ("XY12") ("999") ("tB87#kPtkxqOS2") ≠
      specSignSorted
        [("fid", "100"), ("cdk", "AAAA"), ("captcha_code", "XY12"),
         ("time", "999")] ("tB87#kPtkxqOS2") := by decide

/-- C2 amended: the `sign_sorted` family signs over the parameters in sorted
key order, but `sign_with_captcha` (solver_free) and `build_sign` with
`order="fixed"` (v2, the caller's default) sign over the fixed parameter
order `fid, cdk, (captcha_code,) time`; `build_sign` sorts only when
`order="sorted"`, in which case it agrees with `sign_sorted`. -/
theorem signing_order_amended (fid cdk captcha ts secret : String) :
    sign_with_captcha fid cdk captcha ts secret =
      md5 (joinKV [("fid", fid), ("cdk", cdk), ("captcha_code", captcha),
        ("time", ts)] ++ secret) ∧
    build_sign fid cdk ts secret ("fixed") ("plain") false false =
      md5 (joinKV [("fid", fid), ("cdk", cdk), ("time", ts)] ++ secret) ∧
    build_sign fid cdk ts secret ("sorted") ("plain") false false =
      sign_sorted [("fid", fid), ("cdk", cdk), ("time", ts)] secret := by
  refine ⟨?_, ?_, ?_⟩
  · apply congrArg md5
    apply stringExt
    simp [sign_with_captcha, joinKV, joinAmp, String.data_append]
  · unfold build_sign
    simp only [Bool.false_eq_true, if_false, List.append_nil,
      if_neg (by decide : ¬ ("fixed" : String) = "sorted"),
      if_neg (by decide : ¬ ("plain" : String) = "amp"),
      if_neg (by decide : ¬ ("plain" : String) = "key"),
      if_neg (by decide : ¬ ("plain" : String) = "prefix")]
  · unfold build_sign sign_sorted
    simp only [Bool.false_eq_true, if_false, if_true, eq_self_iff_true,
      List.append_nil,
      if_pos (rfl : ("sorted" : String) = "sorted"),
      if_neg (by decide : ¬ ("plain" : String) = "amp"),
      if_neg (by decide : ¬ ("plain" : String) = "key"),
      if_neg (by decide : ¬ ("plain" : String) = "prefix")]

/-- Witness for C2's amended theorem at a concrete input. -/
theorem signing_order_amended_witness :
    sign_with_captcha ("1") ("C0DE") ("AB") ("7") ("s") =
      md5 (joinKV [("fid", "1"), ("cdk", "C0DE"), ("captcha_code", "AB"),
        ("time", "7")] ++ "s") ∧
    build_sign ("1") ("C0DE") ("7") ("s") ("fixed") ("plain") false false =
      md5 (joinKV [("fid", "1"), ("cdk", "C0DE"), ("time", "7")] ++ "s") ∧
    build_sign ("1") ("C0DE") ("7") ("s") ("sorted") ("plain") false false =
      sign_sorted [("fid", "1"), ("cdk", "C0DE"), ("time", "7")] ("s") :=
  signing_order_amended ("1") ("C0DE") ("AB") ("7") ("s")

/-! ## C5: `md5sign` agrees with `sign_sorted` -/

theorem lookupStr_eq_of_mem {d : List (String × String)}
    (hnd : (keysOf d).Nodup) {kv : String × String} (hkv : kv ∈ d) :
    lookupStr d kv.1 = some kv.2 := by
  induction d with
  | nil => cases hkv
  | cons x xs ih =>
    have hnd0 : (x.1 :: keysOf xs).Nodup := hnd
    have hnd1 := List.nodup_cons.mp hnd0
    rcases List.mem_cons.mp hkv with h | h
    · subst h; simp [lookupStr]
    · have hx : x.1 ≠ kv.1 := by
        intro hh
        exact hnd1.1 (by rw [hh]; exact List.mem_map_of_mem Prod.fst h)
      simp only [lookupStr, if_neg hx]
      exact ih hnd1.2 h

theorem lookupStr_dictSet_ne (d : List (String × String)) (k v k' : String)
    (h : k' ≠ k) : lookupStr (dictSet d k v) k' = lookupStr d k' := by
  induction d with
  | nil => simp [dictSet, lookupStr, Ne.symm h]
  | cons kv rest ih =>
    by_cases hk : kv.1 = k
    · simp [dictSet, hk, lookupStr, Ne.symm h]
    · by_cases hkk : kv.1 = k'
      · simp [dictSet, lookupStr, hkk, h]
      · simp [dictSet, hk, lookupStr, hkk, ih]

theorem lookupStr_dictSet_self (d : List (String × String)) (k v : String) :
    lookupStr (dictSet d k v) k = some v := by
  induction d with
  | nil => simp [dictSet, lookupStr]
  | cons kv rest ih =>
    by_cases hk : kv.1 = k
    · simp [dictSet, hk, lookupStr]
    · simp [dictSet, hk, lookupStr, ih]

theorem foldl_dictSet_preserve (d : List (String × String))
    (acc : List (String × String)) (k' : String) (h : ∀ kv ∈ d, kv.1 ≠ k') :
    lookupStr (d.foldl (fun a kv => dictSet a kv.1 kv.2) acc) k' =
      lookupStr acc k' := by
  induction d generalizing acc with
  | nil => rfl
  | cons x xs ih =>
    simp only [List.foldl_cons]
    rw [ih _ (fun kv hkv => h kv (List.mem_cons_of_mem x hkv))]
    exact lookupStr_dictSet_ne acc x.1 x.2 k'
      (Ne.symm (h x (List.mem_cons_self x xs)))

theorem foldl_dictSet_mem (d : List (String × String))
    (acc : List (String × String)) (hnd : (keysOf d).Nodup)
    (kv : String × String) (hkv : kv ∈ d) :
    lookupStr (d.foldl (fun a kvv => dictSet a kvv.1 kvv.2) acc) kv.1 =
      some kv.2 := by
  induction d generalizing acc with
  | nil => cases hkv
  | cons x xs ih =>
    have hnd0 : (x.1 :: keysOf xs).Nodup := hnd
    have hnd1 := List.nodup_cons.mp hnd0
    simp only [List.foldl_cons]
    rcases List.mem_cons.mp hkv with h | h
    · subst h
      rw [foldl_dictSet_preserve xs _ kv.1 (fun y hy hh =>
        hnd1.1 (by rw [← hh]; exact List.mem_map_of_mem Prod.fst hy))]
      exact lookupStr_dictSet_self acc kv.1 kv.2
    · exact ih _ hnd1.2 h

theorem mapfst_insertSorted (x : String × String)
    (l : List (String × String)) (h : ∀ y ∈ l, x.1 ≠ y.1) :
    (insertSorted pairLe x l).map Prod.fst =
      insertSorted strLe x.1 (l.map Prod.fst) := by
  induction l with
  | nil => rfl
  | cons y ys ih =>
    have hxy : pairLe x y = strLe x.1 y.1 :=
      pairLe_of_key_ne (h y (List.mem_cons_self y ys))
    simp only [insertSorted, List.map_cons, hxy]
    by_cases hb : strLe x.1 y.1 = true
    · simp [hb]
    · simp only [Bool.not_eq_true] at hb
      simp [hb, ih (fun z hz => h z (List.mem_cons_of_mem y hz))]

theorem mapfst_pySorted (d : List (String × String))
    (hkeys : d.Pairwise (fun p q => p.1 ≠ q.1)) :
    (pySorted pairLe d).map Prod.fst = pySorted strLe (keysOf d) := by
  induction d with
  | nil => rfl
  | cons x xs ih =>
    rcases List.pairwise_cons.mp hkeys with ⟨hx, hxs⟩
    simp only [pySorted, keysOf, List.map_cons]
    rw [mapfst_insertSorted x _ (fun y hy =>
      hx y ((mem_pySorted pairLe xs y).mp hy))]
    rw [show (pySorted pairLe xs).map Prod.fst = pySorted strLe (keysOf xs)
      from ih hxs]
    rfl

/-- The parts `md5sign` joins (sorted keys, values looked up) are exactly
the `k=v` strings of the pair-sorted dict, when the keys are distinct. -/
theorem md5sign_encoded (data : List (String × String))
    (hnd : (keysOf data).Nodup) :
    (pySorted strLe (keysOf data)).map
        (fun k => k ++ "=" ++ ((lookupStr data k).getD "")) =
      (pySorted pairLe data).map (fun kv => kv.1 ++ "=" ++ kv.2) := by
  have hpw : data.Pairwise (fun p q => p.1 ≠ q.1) := List.pairwise_map.mp hnd
  rw [← mapfst_pySorted data hpw, List.map_map]
  apply List.map_congr_left
  intro kv hkv
  have hl : lookupStr data kv.1 = some kv.2 :=
    lookupStr_eq_of_mem hnd ((mem_pySorted pairLe data kv).mp hkv)
  simp [Function.comp, hl]

/-- C5 counterexample: when the input dict already carries a `"sign"` key,
the dict display `\x7b"sign": sign, **data\x7d` lets the input value
overwrite the computed digest, so the `"sign"` field of the result is not
`sign_sorted(d, WOS_SECRET)`. -/
theorem md5sign_sign_key_collision :
    lookupStr (md5sign [("sign", "x")] ("tB87#kPtkxqOS2")) ("sign") ≠
      some (sign_sorted [("sign", "x")] ("tB87#kPtkxqOS2")) := by decide

/-- C5 amended: for every string-valued dict `d` with distinct keys that
does not itself contain the key `"sign"`, the `"sign"` field produced by
`md5sign(d)` equals `sign_sorted(d, WOS_SECRET)` (same secret), and every
key-value pair of `d` is unchanged in the result. -/
theorem md5sign_agrees_with_sign_sorted (data : List (String × String))
    (secret : String) (hnd : (keysOf data).Nodup)
    (hsign : ("sign" : String) ∉ keysOf data) :
    lookupStr (md5sign data secret) ("sign") =
        some (sign_sorted data secret) ∧
      ∀ kv ∈ data, lookupStr (md5sign data secret) kv.1 = some kv.2 := by
  constructor
  · simp only [md5sign]
    rw [foldl_dictSet_preserve data _ ("sign") (fun kv hkv hh =>
      hsign (by rw [← hh]; exact List.mem_map_of_mem Prod.fst hkv))]
    simp only [lookupStr, if_pos rfl]
    rw [md5sign_encoded data hnd]
    rfl
  · intro kv hkv
    simp only [md5sign]
    exact foldl_dictSet_mem data _ hnd kv hkv

/-- Witness for C5's amended theorem at the player form. -/
theorem md5sign_agrees_with_sign_sorted_witness :
    ((keysOf [("fid", "42"), ("time", "7")]).Nodup ∧
        ("sign" : String) ∉ keysOf [("fid", "42"), ("time", "7")]) ∧
      (lookupStr (md5sign [("fid", "42"), ("time", "7")] ("s")) ("sign") =
          some (sign_sorted [("fid", "42"), ("time", "7")] ("s")) ∧
        ∀ kv ∈ ([("fid", "42"), ("time", "7")] : List (String × String)),
          lookupStr (md5sign [("fid", "42"), ("time", "7")] ("s")) kv.1 =
            some kv.2) :=
  ⟨⟨by decide, by decide⟩,
    md5sign_agrees_with_sign_sorted _ _ (by decide) (by decide)⟩

/-! ## C6 -/

/-- C6 counterexample: a response that *is* a JSON object with
`msg = "success"` and a `"data"` field, but whose `"data"` value is a
string.  The claim says `fetch_player` returns a player-status record here;
the code instead raises (`"boom".get` is an `AttributeError`), returning
neither a record nor `None`. -/
theorem fetch_player_crashes_on_nonobject_data :
    objGet [("msg", Json.scalar (JVal.str ("success"))),
        ("data", Json.scalar (JVal.str ("boom")))] ("msg") =
      some (Json.scalar (JVal.str ("success"))) ∧
    (objGet [("msg", Json.scalar (JVal.str ("success"))),
        ("data", Json.scalar (JVal.str ("boom")))] ("data")).isSome = true ∧
    fetch_player ("1")
        (some (Json.obj [("msg", Json.scalar (JVal.str ("success"))),
          ("data", Json.scalar (JVal.str ("boom")))])) 200 ("") =
      Except.error () :=
  ⟨rfl, rfl, rfl⟩

/-- C6 amended: `fetch_player` returns a player-status record *only if* the
decoded body is a JSON object with `msg = "success"` and a `"data"` field;
it returns `None` for an undecodable body, a non-object body, and an object
without a success `msg` or without `"data"`; and *if* additionally the
`"data"` value is an object whose `fid`, `nickname` and `furnace_lv` fields
are well-typed, it returns the record whose `fid` is `str()` of the `fid`
field (the argument when missing), whose `nickname` is the stripped
nickname (empty when missing), and whose `furnace_lv` is `int()` of the
field (0 when missing).  On ill-typed `"data"` (e.g. not an object) the
call raises instead of returning. -/
theorem fetch_player_amended (fid : String) (st : Int) (tx : String) :
    (∀ body rec, fetch_player fid body st tx = Except.ok (some rec) →
      ∃ fields dval, body = some (Json.obj fields) ∧
        objGet fields ("msg") = some (Json.scalar (JVal.str ("success"))) ∧
        objGet fields ("data") = some dval) ∧
    fetch_player fid none st tx = Except.ok none ∧
    (∀ v, fetch_player fid (some (Json.scalar v)) st tx = Except.ok none) ∧
    (∀ fields,
      (objGet fields ("msg") ≠ some (Json.scalar (JVal.str ("success"))) ∨
          objGet fields ("data") = none) →
      fetch_player fid (some (Json.obj fields)) st tx = Except.ok none) ∧
    (∀ fields dfields fidv nick furn,
      objGet fields ("msg") = some (Json.scalar (JVal.str ("success"))) →
      objGet fields ("data") = some (Json.obj dfields) →
      getFidField dfields fid = Except.ok fidv →
      getNickField dfields = Except.ok nick →
      getFurnaceField dfields = Except.ok furn →
      fetch_player fid (some (Json.obj fields)) st tx =
        Except.ok (some (Player.mk fidv nick furn))) ∧
    (∀ dfields, objGet dfields ("nickname") = none →
      getNickField dfields = Except.ok "") ∧
    (∀ dfields s, objGet dfields ("nickname") =
        some (Json.scalar (JVal.str s)) →
      getNickField dfields = Except.ok (pyStrip s)) ∧
    (∀ dfields, objGet dfields ("furnace_lv") = none →
      getFurnaceField dfields = Except.ok 0) ∧
    (∀ dfields v, objGet dfields ("fid") = some (Json.scalar v) →
      getFidField dfields fid = Except.ok (pyStr v)) := by
  refine ⟨?_, rfl, ?_, ?_, ?_, ?_, ?_, ?_, ?_⟩
  · intro body rec h
    match body with
    | none =>
      rw [show fetch_player fid none st tx = Except.ok none from rfl] at h
      simp at h
    | some (Json.scalar v) => simp [fetch_player] at h
    | some (Json.obj fields) =>
      refine ⟨fields, ?_⟩
      rcases hm : objGet fields ("msg") with _ | jm
      · simp only [fetch_player, hm] at h; simp at h
      · match jm with
        | Json.obj _ => simp only [fetch_player, hm] at h; simp at h
        | Json.scalar JVal.null =>
          simp only [fetch_player, hm] at h; simp at h
        | Json.scalar (JVal.bool b) =>
          simp only [fetch_player, hm] at h; simp at h
        | Json.scalar (JVal.num n) =>
          simp only [fetch_player, hm] at h; simp at h
        | Json.scalar (JVal.str m) =>
          rcases hd : objGet fields ("data") with _ | dval
          · simp only [fetch_player, hm, hd] at h; simp at h
          · by_cases hms : m = "success"
            · subst hms; exact ⟨dval, rfl, rfl, rfl⟩
            · simp only [fetch_player, hm, hd, if_neg hms] at h; simp at h
  · intro v; rfl
  · intro fields hne
    rcases hm : objGet fields ("msg") with _ | jm
    · simp [fetch_player, hm]
    · match jm with
      | Json.obj _ => simp [fetch_player, hm]
      | Json.scalar JVal.null => simp [fetch_player, hm]
      | Json.scalar (JVal.bool b) => simp [fetch_player, hm]
      | Json.scalar (JVal.num n) => simp [fetch_player, hm]
      | Json.scalar (JVal.str m) =>
        rcases hd : objGet fields ("data") with _ | dval
        · simp [fetch_player, hm, hd]
        · by_cases hms : m = "success"
          · exfalso
            rcases hne with hne | hne
            · exact hne (by rw [hm, hms])
            · rw [hd] at hne; cases hne
          · simp [fetch_player, hm, hd, if_neg hms]
  · intro fields dfields fidv nick furn h1 h2 h3 h4 h5
    simp [fetch_player, h1, h2, h3, h4, h5]
  · intro dfields h; simp [getNickField, h]
  · intro dfields s h
    simp only [getNickField, h]
    by_cases hs : s = ""
    · subst hs; simp [pyTruthy, pyStrip, stripChars]
    · simp [pyTruthy, hs]
  · intro dfields h; simp [getFurnaceField, h]
  · intro dfields v h; simp [getFidField, h]

/-- Witness for C6's amended theorem: a well-typed success response. -/
theorem fetch_player_amended_witness :
    fetch_player ("42")
        (some (Json.obj [("msg", Json.scalar (JVal.str ("success"))),
          ("data", Json.obj [("fid", Json.scalar (JVal.num 42)),
            ("nickname", Json.scalar (JVal.str (" Bob "))),
            ("furnace_lv", Json.scalar (JVal.num 30))])])) 200 ("") =
      Except.ok (some (Player.mk ("42") ("Bob") 30)) :=
  (fetch_player_amended ("42") 200 ("")).2.2.2.2.1
    _ _ _ _ _ rfl rfl rfl rfl rfl

/-! ## Character-class and parser lemmas -/

theorem toNat_ofNat_valid (n : Nat) (h : n.isValidChar) :
    (Char.ofNat n).toNat = n := by
  unfold Char.ofNat
  rw [dif_pos h]
  rfl

theorem pyUpperChar_idem (c : Char) :
    pyUpperChar (pyUpperChar c) = pyUpperChar c := by
  by_cases h : (97 ≤ c.toNat && c.toNat ≤ 122) = true
  · have hb : 97 ≤ c.toNat ∧ c.toNat ≤ 122 := by
      simpa only [Bool.and_eq_true, decide_eq_true_eq] using h
    have h1 : pyUpperChar c = Char.ofNat (c.toNat - 32) := by
      unfold pyUpperChar; rw [if_pos h]
    have hv : (c.toNat - 32).isValidChar := Or.inl (by omega)
    have ht := toNat_ofNat_valid (c.toNat - 32) hv
    rw [h1]
    unfold pyUpperChar
    rw [if_neg (by
      intro hcon
      rw [ht] at hcon
      simp only [Bool.and_eq_true, decide_eq_true_eq] at hcon
      omega)]
  · have h1 : pyUpperChar c = c := by unfold pyUpperChar; rw [if_neg h]
    rw [h1, h1]

theorem pyUpper_idem (s : String) : pyUpper (pyUpper s) = pyUpper s := by
  apply stringExt
  show ((String.mk (s.data.map pyUpperChar)).data.map pyUpperChar) =
    s.data.map pyUpperChar
  rw [show (String.mk (s.data.map pyUpperChar)).data =
    s.data.map pyUpperChar from rfl, List.map_map]
  exact List.map_congr_left (fun c _ => pyUpperChar_idem c)

theorem pyUpperChar_alnum {c : Char} (h : pyIsAlnum c = true) :
    pyIsAlnum (pyUpperChar c) = true := by
  simp only [pyIsAlnum, pyIsAlpha, pyIsDigit, Bool.or_eq_true,
    Bool.and_eq_true, decide_eq_true_eq] at h
  by_cases hl : (97 ≤ c.toNat && c.toNat ≤ 122) = true
  · have hb : 97 ≤ c.toNat ∧ c.toNat ≤ 122 := by
      simpa only [Bool.and_eq_true, decide_eq_true_eq] using hl
    have hv : (c.toNat - 32).isValidChar := Or.inl (by omega)
    have ht := toNat_ofNat_valid (c.toNat - 32) hv
    unfold pyUpperChar
    rw [if_pos hl]
    simp only [pyIsAlnum, pyIsAlpha, pyIsDigit, Bool.or_eq_true,
      Bool.and_eq_true, decide_eq_true_eq, ht]
    omega
  · unfold pyUpperChar
    rw [if_neg hl]
    simp only [pyIsAlnum, pyIsAlpha, pyIsDigit, Bool.or_eq_true,
      Bool.and_eq_true, decide_eq_true_eq]
    simp only [Bool.and_eq_true, decide_eq_true_eq] at hl
    omega

theorem digit_not_space {c : Char} (h : pyIsDigit c = true) :
    pyIsSpace c = false := by
  simp only [pyIsDigit, Bool.and_eq_true, decide_eq_true_eq] at h
  cases hc : pyIsSpace c
  · rfl
  · exfalso
    simp only [pyIsSpace, Bool.or_eq_true, decide_eq_true_eq] at hc
    omega

theorem takeWhile_all {α : Type} (p : α → Bool) :
    ∀ l : List α, (l.takeWhile p).all p = true := by
  intro l
  induction l with
  | nil => rfl
  | cons c rest ih =>
    by_cases h : p c = true
    · simp [List.takeWhile_cons, h, ih]
    · simp only [Bool.not_eq_true] at h
      simp [List.takeWhile_cons, h]

theorem dropWhile_all_neg {p : Char → Bool} :
    ∀ l : List Char, l.all (fun c => !p c) = true → l.dropWhile p = l := by
  intro l h
  cases l with
  | nil => rfl
  | cons c rest =>
    simp only [List.all_cons, Bool.and_eq_true, Bool.not_eq_true'] at h
    simp [List.dropWhile_cons, h.1]

theorem stripChars_all_neg (l : List Char)
    (h : l.all (fun c => !pyIsSpace c) = true) : stripChars l = l := by
  unfold stripChars
  rw [dropWhile_all_neg l h]
  rw [dropWhile_all_neg l.reverse (by simpa using h)]
  exact List.reverse_reverse l

theorem pyStrip_of_all_nonspace {g : String}
    (h : g.data.all (fun c => !pyIsSpace c) = true) : pyStrip g = g := by
  unfold pyStrip
  rw [stripChars_all_neg g.data h]

theorem BULLET_match_token {line g : String}
    (h : BULLET_match line = some g) :
    g ≠ "" ∧ g.data.all (fun c => !pyIsSpace c) = true := by
  unfold BULLET_match at h
  rcases hsp : line.data.dropWhile pyIsSpace with _ | ⟨c, cs2⟩
  · rw [hsp] at h; simp at h
  · rw [hsp] at h
    dsimp only at h
    by_cases hc : c = '-'
    · rw [if_pos hc] at h
      by_cases hcond :
          (((cs2.dropWhile pyIsSpace).takeWhile
              (fun c => !pyIsSpace c)).isEmpty ||
            !(((cs2.dropWhile pyIsSpace).dropWhile
              (fun c => !pyIsSpace c)).all pyIsSpace)) = true
      · rw [if_pos hcond] at h; cases h
      · rw [if_neg hcond] at h
        simp only [Bool.or_eq_true, Bool.not_eq_true', not_or] at hcond
        injection h with h'
        subst h'
        refine ⟨?_, takeWhile_all _ _⟩
        intro hmt
        have hnil : (cs2.dropWhile pyIsSpace).takeWhile
            (fun c => !pyIsSpace c) = [] := congrArg String.data hmt
        rw [hnil] at hcond
        exact hcond.1 rfl
    · rw [if_neg hc] at h; cases h

theorem csvToken_some {m n : Nat} {good : Char → Bool} {line t : String}
    (h : csvToken m n good line = some t) :
    t.data.all good = true ∧ m ≤ t.length ∧ t.length ≤ n := by
  unfold csvToken at h
  by_cases hc : ((stripChars line.data).all good &&
      decide (m ≤ (stripChars line.data).length) &&
      decide ((stripChars line.data).length ≤ n)) = true
  · rw [if_pos hc] at h
    injection h with h'
    subst h'
    simp only [Bool.and_eq_true, decide_eq_true_eq] at hc
    exact ⟨hc.1.1, hc.1.2, hc.2⟩
  · rw [if_neg hc] at h; cases h

theorem mem_addIfNew_cases {out : List String} {y x : String}
    (h : x ∈ addIfNew out y) : x ∈ out ∨ x = y := by
  unfold addIfNew at h
  by_cases hmem : y ∈ out
  · rw [if_pos hmem] at h; exact Or.inl h
  · rw [if_neg hmem] at h
    rcases List.mem_append.mp h with h1 | h1
    · exact Or.inl h1
    · exact Or.inr (List.mem_singleton.mp h1)

theorem foldl_addIfNew_inv (P : String → Prop) (toks : List String) :
    ∀ out, (∀ f ∈ out, P f) → (∀ t ∈ toks, P t) →
      ∀ f ∈ toks.foldl addIfNew out, P f := by
  induction toks with
  | nil => intro out hout _ f hf; exact hout f hf
  | cons t ts ih =>
    intro out hout htoks f hf
    rw [List.foldl_cons] at hf
    refine ih _ ?_ (fun x hx => htoks x (List.mem_cons_of_mem t hx)) f hf
    intro x hx
    rcases mem_addIfNew_cases hx with h1 | h1
    · exact hout x h1
    · rw [h1]; exact htoks t (List.mem_cons_self t ts)

/-- Each line step of `parse_codes` only adds upper-case images. -/
theorem parseCodesStep_mem {st : List String × Option String} {line x : String}
    (hx : x ∈ (parseCodesStep st line).1) : x ∈ st.1 ∨ pyUpper x = x := by
  unfold parseCodesStep at hx
  by_cases h1 : yamlHeaderLine ("codes") line = true
  · rw [if_pos h1] at hx; exact Or.inl hx
  · rw [if_neg h1] at hx
    rcases hB : BULLET_match line with _ | g <;> rw [hB] at hx <;>
      dsimp only at hx
    · rcases hC : CSV_CODE_match line with _ | t <;> rw [hC] at hx <;>
        dsimp only at hx
      · exact Or.inl hx
      · rcases mem_addIfNew_cases hx with h2 | h2
        · exact Or.inl h2
        · rw [h2]; exact Or.inr (pyUpper_idem t)
    · by_cases h2 : st.2 = some ("codes")
      · rw [if_pos h2] at hx
        dsimp only at hx
        rcases mem_addIfNew_cases hx with h3 | h3
        · exact Or.inl h3
        · rw [h3]; exact Or.inr (pyUpper_idem (pyStrip g))
      · rw [if_neg h2] at hx
        rcases hC : CSV_CODE_match line with _ | t <;> rw [hC] at hx <;>
          dsimp only at hx
        · exact Or.inl hx
        · rcases mem_addIfNew_cases hx with h3 | h3
          · exact Or.inl h3
          · rw [h3]; exact Or.inr (pyUpper_idem t)

theorem parseCodesStep_inv (lines : List String) :
    ∀ st : List String × Option String, (∀ c ∈ st.1, pyUpper c = c) →
      ∀ c ∈ (lines.foldl parseCodesStep st).1, pyUpper c = c := by
  induction lines with
  | nil => intro st h c hc; exact h c hc
  | cons line rest ih =>
    intro st hst c hc
    rw [List.foldl_cons] at hc
    refine ih _ ?_ c hc
    intro x hx
    rcases parseCodesStep_mem hx with h1 | h1
    · exact hst x h1
    · exact h1

theorem all_digit_nonspace {l : List Char} (h : l.all pyIsDigit = true) :
    l.all (fun c => !pyIsSpace c) = true := by
  rw [List.all_eq_true] at h ⊢
  intro c hc
  simp [digit_not_space (h c hc)]

theorem fidTokenOk_of_digits {t : String} (hd : t.data.all pyIsDigit = true)
    (hlen : 1 ≤ t.length) : fidTokenOk t := by
  refine ⟨?_, all_digit_nonspace hd⟩
  intro heq
  subst heq
  simp at hlen

/-- Each line step of `parse_fids` only adds nonempty whitespace-free
tokens. -/
theorem parseFidsStep_mem {st : List String × Option String} {line x : String}
    (hx : x ∈ (parseFidsStep st line).1) : x ∈ st.1 ∨ fidTokenOk x := by
  unfold parseFidsStep at hx
  by_cases h1 : yamlHeaderLine ("fids") line = true
  · rw [if_pos h1] at hx; exact Or.inl hx
  · rw [if_neg h1] at hx
    rcases hB : BULLET_match line with _ | g <;> rw [hB] at hx <;>
      dsimp only at hx
    · rcases hC : CSV_FID_match line with _ | t <;> rw [hC] at hx <;>
        dsimp only at hx
      · exact Or.inl hx
      · rcases mem_addIfNew_cases hx with h2 | h2
        · exact Or.inl h2
        · rcases csvToken_some hC with ⟨hd, hm, _⟩
          rw [h2]; exact Or.inr (fidTokenOk_of_digits hd (by omega))
    · by_cases h2 : st.2 = some ("fids")
      · rw [if_pos h2] at hx
        dsimp only at hx
        rcases mem_addIfNew_cases hx with h3 | h3
        · exact Or.inl h3
        · rcases BULLET_match_token hB with ⟨hne, hall⟩
          rw [h3, pyStrip_of_all_nonspace hall]
          exact Or.inr ⟨hne, hall⟩
      · rw [if_neg h2] at hx
        rcases hC : CSV_FID_match line with _ | t <;> rw [hC] at hx <;>
          dsimp only at hx
        · exact Or.inl hx
        · rcases mem_addIfNew_cases hx with h3 | h3
          · exact Or.inl h3
          · rcases csvToken_some hC with ⟨hd, hm, _⟩
            rw [h3]; exact Or.inr (fidTokenOk_of_digits hd (by omega))

theorem parseFidsStep_inv (lines : List String) :
    ∀ st : List String × Option String, (∀ c ∈ st.1, fidTokenOk c) →
      ∀ c ∈ (lines.foldl parseFidsStep st).1, fidTokenOk c := by
  induction lines with
  | nil => intro st h c hc; exact h c hc
  | cons line rest ih =>
    intro st hst c hc
    rw [List.foldl_cons] at hc
    refine ih _ ?_ c hc
    intro x hx
    rcases parseFidsStep_mem hx with h1 | h1
    · exact hst x h1
    · exact h1

theorem fidScanFuel_tokens :
    ∀ (fuel : Nat) (pw : Bool) (cs : List Char) (s : String),
      s ∈ fidScanFuel fuel pw cs → fidRegexOk s := by
  intro fuel
  induction fuel with
  | zero => intro pw cs s h; simp [fidScanFuel] at h
  | succ n ih =>
    intro pw cs s h
    cases cs with
    | nil => simp [fidScanFuel] at h
    | cons c rest =>
      unfold fidScanFuel at h
      dsimp only at h
      by_cases hc : (pyIsDigit c && !pw) = true
      · rw [if_pos hc] at h
        by_cases hk : ((match (c :: rest).dropWhile pyIsDigit with
            | [] => true
            | d :: _ => !pyIsWord d) &&
            decide (3 ≤ ((c :: rest).takeWhile pyIsDigit).length) &&
            decide (((c :: rest).takeWhile pyIsDigit).length ≤ 18)) = true
        · rw [if_pos hk] at h
          rcases List.mem_cons.mp h with h1 | h1
          · subst h1
            simp only [Bool.and_eq_true, decide_eq_true_eq] at hk
            exact ⟨takeWhile_all _ _, hk.1.2, hk.2⟩
          · exact ih true _ s h1
        · rw [if_neg hk] at h
          exact ih true _ s h
      · rw [if_neg hc] at h
        exact ih (pyIsWord c) rest s h

theorem fidScan_tokens {text s : String} (h : s ∈ fidScan text) :
    fidRegexOk s := fidScanFuel_tokens _ _ _ s h

theorem fidsMsgsFold_inv (msgs : List (Option String)) :
    ∀ out : List String, (∀ f ∈ out, fidRegexOk f) →
      ∀ f ∈ msgs.foldl
        (fun out mc =>
          let text := pyStrip (mc.getD "")
          if pyStartsHash text then out
          else (fidScan text).foldl addIfNew out)
        out, fidRegexOk f := by
  induction msgs with
  | nil => intro out hout f hf; exact hout f hf
  | cons mc rest ih =>
    intro out hout f hf
    rw [List.foldl_cons] at hf
    refine ih _ ?_ f hf
    dsimp only
    by_cases hh : pyStartsHash (pyStrip (mc.getD "")) = true
    · rw [if_pos hh]; exact hout
    · rw [if_neg hh]
      exact foldl_addIfNew_inv fidRegexOk _ out hout
        (fun t ht => fidScan_tokens ht)

/-! ## C3 and C8 -/

/-- C3 counterexample: a YAML bullet under a `fids:` header is added
verbatim by `parse_fids`, so the parsed set can contain a token that is not
made of decimal digits. -/
theorem parse_fids_accepts_nonnumeric :
    ("abc" ∈ parse_fids ("fids:\n- abc")) ∧
      ("abc".data.all pyIsDigit) = false := by decide

/-- C3 amended: every element `parse_fids` accepts through the CSV pattern
is 6-12 decimal digits, and every element of `parse_fids_from_messages` is
3-18 decimal digits; a bullet-list entry under a `fids:` header, however,
is only guaranteed to be a nonempty whitespace-free token (it is added
verbatim and may be non-numeric). -/
theorem parse_fids_tokens_amended :
    (∀ text f, f ∈ parse_fids text → fidTokenOk f) ∧
    (∀ line t, CSV_FID_match line = some t →
      t.data.all pyIsDigit = true ∧ 6 ≤ t.length ∧ t.length ≤ 12) ∧
    (∀ msgs f, f ∈ parse_fids_from_messages msgs → fidRegexOk f) := by
  refine ⟨?_, ?_, ?_⟩
  · intro text f hf
    unfold parse_fids at hf
    exact parseFidsStep_inv (pySplitlines text) ([], none)
      (by intro c hc; cases hc) f hf
  · intro line t h
    exact csvToken_some h
  · intro msgs f hf
    unfold parse_fids_from_messages at hf
    rw [mem_pySorted] at hf
    exact fidsMsgsFold_inv msgs [] (by intro x hx; cases hx) f hf

/-- Witness for C3's amended theorem. -/
theorem parse_fids_tokens_amended_witness :
    (("9x" ∈ parse_fids ("fids:\n- 9x")) ∧ fidTokenOk ("9x")) ∧
    (CSV_FID_match (" 123456 ") = some ("123456") ∧
      ("123456".data.all pyIsDigit = true ∧
        6 ≤ ("123456" : String).length ∧ ("123456" : String).length ≤ 12)) ∧
    (("12345678" ∈ parse_fids_from_messages [some ("id 12345678 ok")]) ∧
      fidRegexOk ("12345678")) :=
  ⟨⟨by decide, parse_fids_tokens_amended.1 ("fids:\n- 9x") ("9x") (by decide)⟩,
   ⟨by decide, parse_fids_tokens_amended.2.1 (" 123456 ") ("123456")
      (by decide)⟩,
   ⟨by decide, parse_fids_tokens_amended.2.2 [some ("id 12345678 ok")]
      ("12345678") (by decide)⟩⟩

/-- C8: every element of `parse_codes text` is a fixed point of
upper-casing, and every code the CSV pattern accepts is 4-24 ASCII letters
and digits (both the matched group and the upper-cased value that is
added). -/
theorem parse_codes_upper_csv (text : String) :
    (∀ c ∈ parse_codes text, pyUpper c = c) ∧
    (∀ line t, CSV_CODE_match line = some t →
      (t.data.all pyIsAlnum = true ∧ 4 ≤ t.length ∧ t.length ≤ 24) ∧
      (pyUpper t).data.all pyIsAlnum = true ∧
      (pyUpper t).length = t.length) := by
  constructor
  · intro c hc
    unfold parse_codes at hc
    exact parseCodesStep_inv (pySplitlines text) ([], none)
      (by intro x hx; cases hx) c hc
  · intro line t h
    rcases csvToken_some h with ⟨hall, hm, hM⟩
    refine ⟨⟨hall, hm, hM⟩, ?_, ?_⟩
    · show (t.data.map pyUpperChar).all pyIsAlnum = true
      rw [List.all_eq_true] at hall ⊢
      intro c hc
      rcases List.mem_map.mp hc with ⟨d, hd, hud⟩
      rw [← hud]
      exact pyUpperChar_alnum (hall d hd)
    · show (t.data.map pyUpperChar).length = t.data.length
      exact List.length_map _ _

/-- Witness for C8 at concrete inputs. -/
theorem parse_codes_upper_csv_witness :
    (("WINTER15" ∈ parse_codes ("winter15")) ∧
      pyUpper ("WINTER15") = "WINTER15") ∧
    (CSV_CODE_match ("  code99 ") = some ("code99") ∧
      (("code99".data.all pyIsAlnum = true ∧
          4 ≤ ("code99" : String).length ∧
          ("code99" : String).length ≤ 24) ∧
        (pyUpper ("code99")).data.all pyIsAlnum = true ∧
        (pyUpper ("code99")).length = ("code99" : String).length)) :=
  ⟨⟨by decide, (parse_codes_upper_csv ("winter15")).1 ("WINTER15")
      (by decide)⟩,
   ⟨by decide, (parse_codes_upper_csv ("")).2 ("  code99 ") ("code99")
      (by decide)⟩⟩

/-! ## C4 -/

/-- C4 counterexample: `summarize_diffs` in `scripts/daily.py` compares
with `!=`, so a *decreased* furnace level (5 to 3) still produces a
furnace-change entry, contradicting "a furnace line is emitted only when
the current level is strictly greater". -/
theorem summarize_diffs_emits_on_decrease :
    furnace_changes [("1", PrevRec.mk (some ("n")) (some 5))]
        [("1", Player.mk ("1") ("n") 3)] = [(5, 3, "n", "1")] := by decide

theorem furnace_changes_aux (prev : List (String × PrevRec)) :
    ∀ (curr : List (String × Player))
      (acc : List (Int × Int × String × String)),
      (∀ x ∈ acc, x.1 ≠ x.2.1) →
      ∀ x ∈ curr.foldl
        (fun acc fidnow =>
          match alookup prev fidnow.1 with
          | none => acc
          | some before =>
            if fidnow.2.furnace_lv ≠ before.furnace_lv.getD 0 then
              acc ++ [(before.furnace_lv.getD 0, fidnow.2.furnace_lv,
                fidnow.2.nickname, fidnow.1)]
            else acc)
        acc, x.1 ≠ x.2.1 := by
  intro curr
  induction curr with
  | nil => intro acc h x hx; exact h x hx
  | cons fn rest ih =>
    intro acc h x hx
    rw [List.foldl_cons] at hx
    refine ih _ ?_ x hx
    intro y hy
    rcases hl : alookup prev fn.1 with _ | before <;> rw [hl] at hy <;>
      dsimp only at hy
    · exact h y hy
    · by_cases hne : fn.2.furnace_lv ≠ before.furnace_lv.getD 0
      · rw [if_pos hne] at hy
        rcases List.mem_append.mp hy with h1 | h1
        · exact h y h1
        · rw [List.mem_singleton.mp h1]
          exact Ne.symm hne
      · rw [if_neg hne] at hy; exact h y hy

/-- C4 amended: `summarize_diffs` (daily.py) emits a furnace-change entry
exactly for levels that *differ* — in either direction, decreases included
(every emitted entry has `old ≠ new`; the counterexample shows a decrease
is emitted); the cog and daily_discord_batch append a furnace-up line only
when both levels are available and the new stove level is strictly greater
than the previous one. -/
theorem furnace_reporting_amended :
    (∀ prev curr x, x ∈ furnace_changes prev curr → x.1 ≠ x.2.1) ∧
    (∀ (p : Option Int) (v : Option Json), cogFurnaceUp p v = true →
      ∃ pv jv s, p = some pv ∧ v = some jv ∧ stoveIntOk jv = some s ∧
        pv < s) ∧
    (∀ (pj sj : Option Json), ddbFurnaceUp pj sj = true →
      ∃ pv sv p s, pj = some pv ∧ sj = some sv ∧ stoveIntOk pv = some p ∧
        stoveIntOk sv = some s ∧ p < s) := by
  refine ⟨?_, ?_, ?_⟩
  · intro prev curr x hx
    unfold furnace_changes at hx
    exact furnace_changes_aux prev curr [] (by intro y hy; cases hy) x hx
  · intro p v h
    cases p with
    | none => exact absurd h (by simp [cogFurnaceUp])
    | some pv =>
      cases v with
      | none => exact absurd h (by simp [cogFurnaceUp])
      | some jv =>
        simp only [cogFurnaceUp] at h
        rcases hsi : stoveIntOk jv with _ | s <;> rw [hsi] at h <;>
          dsimp only at h
        · cases h
        · exact ⟨pv, jv, s, rfl, rfl, hsi, by simpa using of_decide_eq_true h⟩
  · intro pj sj h
    cases pj with
    | none => exact absurd h (by simp [ddbFurnaceUp])
    | some pv =>
      cases sj with
      | none => exact absurd h (by simp [ddbFurnaceUp])
      | some sv =>
        simp only [ddbFurnaceUp] at h
        rcases hs : stoveIntOk sv with _ | s <;> rw [hs] at h
        · dsimp only at h; cases h
        · rcases hp : stoveIntOk pv with _ | q <;> rw [hp] at h <;>
            dsimp only at h
          · cases h
          · exact ⟨pv, sv, q, s, rfl, rfl, hp, hs, of_decide_eq_true h⟩

/-- Witness for C4's amended theorem at concrete inputs. -/
theorem furnace_reporting_amended_witness :
    (((5 : Int), (3 : Int), ("n" : String), ("1" : String)) ∈
        furnace_changes [("1", PrevRec.mk (some ("n")) (some 5))]
          [("1", Player.mk ("1") ("n") 3)] ∧
      ((5 : Int), (3 : Int), ("n" : String), ("1" : String)).1 ≠
        ((5 : Int), (3 : Int), ("n" : String), ("1" : String)).2.1) ∧
    (∃ pv jv s, (some 4 : Option Int) = some pv ∧
      (some (Json.scalar (JVal.num 7)) : Option Json) = some jv ∧
      stoveIntOk jv = some s ∧ pv < s) ∧
    (∃ pv sv p s,
      (some (Json.scalar (JVal.num 2)) : Option Json) = some pv ∧
      (some (Json.scalar (JVal.str ("8"))) : Option Json) = some sv ∧
      stoveIntOk pv = some p ∧ stoveIntOk sv = some s ∧ p < s) :=
  ⟨⟨by decide, furnace_reporting_amended.1
      [("1", PrevRec.mk (some ("n")) (some 5))]
      [("1", Player.mk ("1") ("n") 3)] _ (by decide)⟩,
   furnace_reporting_amended.2.1 (some 4)
      (some (Json.scalar (JVal.num 7))) (by decide),
   furnace_reporting_amended.2.2 (some (Json.scalar (JVal.num 2)))
      (some (Json.scalar (JVal.str ("8")))) (by decide)⟩

/-! ## C7 -/

theorem filterSplit {α : Type} (p : α → Bool) :
    ∀ l : List α,
      (l.filter p).length + (l.filter (fun x => !p x)).length = l.length := by
  intro l
  induction l with
  | nil => rfl
  | cons x xs ih =>
    by_cases h : p x = true
    · simp [List.filter_cons, h, ih]
      omega
    · simp only [Bool.not_eq_true] at h
      simp [List.filter_cons, h, ih]
      omega

theorem redeemInner (statusOf : String → String → String) (code : String) :
    ∀ (fl : List String) (acc : Nat × Nat × List String),
      (fl.foldl (redeemPairStep statusOf code) acc).1 =
          acc.1 + (fl.filter
            (fun fid => decide (statusOf code fid ∈ okStatuses))).length ∧
      (fl.foldl (redeemPairStep statusOf code) acc).2.1 =
          acc.2.1 + (fl.filter
            (fun fid => !decide (statusOf code fid ∈ okStatuses))).length ∧
      (fl.foldl (redeemPairStep statusOf code) acc).2.2.length =
          acc.2.2.length + fl.length := by
  intro fl
  induction fl with
  | nil => intro acc; exact ⟨by simp, by simp, by simp⟩
  | cons fid rest ih =>
    intro acc
    rw [List.foldl_cons]
    rcases ih (redeemPairStep statusOf code acc fid) with ⟨h1, h2, h3⟩
    refine ⟨?_, ?_, ?_⟩
    · rw [h1]
      by_cases hok : decide (statusOf code fid ∈ okStatuses) = true
      · simp [redeemPairStep, hok, List.filter_cons]
        omega
      · simp only [Bool.not_eq_true] at hok
        simp [redeemPairStep, hok, List.filter_cons]
    · rw [h2]
      by_cases hok : decide (statusOf code fid ∈ okStatuses) = true
      · simp [redeemPairStep, hok, List.filter_cons]
      · simp only [Bool.not_eq_true] at hok
        simp [redeemPairStep, hok, List.filter_cons]
        omega
    · rw [h3]
      simp [redeemPairStep]
      omega

theorem redeemOuter (statusOf : String → String → String)
    (fl : List String) :
    ∀ (cl : List String) (acc : Nat × Nat × List String),
      (cl.foldl (fun a code =>
          fl.foldl (redeemPairStep statusOf code) a) acc).1 =
        acc.1 + (cl.map (fun code => (fl.filter
          (fun fid => decide (statusOf code fid ∈ okStatuses))).length)).sum ∧
      (cl.foldl (fun a code =>
          fl.foldl (redeemPairStep statusOf code) a) acc).2.1 =
        acc.2.1 + (cl.map (fun code => (fl.filter
          (fun fid => !decide (statusOf code fid ∈ okStatuses))).length)).sum ∧
      (cl.foldl (fun a code =>
          fl.foldl (redeemPairStep statusOf code) a) acc).2.2.length =
        acc.2.2.length + cl.length * fl.length := by
  intro cl
  induction cl with
  | nil => intro acc; exact ⟨by simp, by simp, by simp⟩
  | cons code rest ih =>
    intro acc
    rw [List.foldl_cons]
    rcases ih (fl.foldl (redeemPairStep statusOf code) acc) with ⟨h1, h2, h3⟩
    rcases redeemInner statusOf code fl acc with ⟨g1, g2, g3⟩
    refine ⟨?_, ?_, ?_⟩
    · rw [h1, g1]
      simp [List.map_cons, List.sum_cons]
      omega
    · rw [h2, g2]
      simp [List.map_cons, List.sum_cons]
      omega
    · rw [h3, g3]
      rw [List.length_cons, Nat.succ_mul]
      omega

/-- C7: in the redeem loop every (code, fid) pair of the sorted code set
crossed with the sorted roster is attempted and counted exactly once:
`ok_redeems` is exactly the number of pairs whose final status is in
`SUCCESS`/`ALREADY`/`SAME_TYPE`, `fail_redeems` exactly the rest, one
result line is appended per pair, and `ok + fail = |codes| * |fids|`. -/
theorem redeem_loop_counts (codes fids : List String)
    (statusOf : String → String → String) :
    (redeem_loop codes fids statusOf).1 +
        (redeem_loop codes fids statusOf).2.1 =
      codes.length * fids.length ∧
    (redeem_loop codes fids statusOf).2.2.length =
      codes.length * fids.length ∧
    (redeem_loop codes fids statusOf).1 =
      ((pySorted strLe codes).map (fun code => ((pySorted strLe fids).filter
        (fun fid => decide (statusOf code fid ∈ okStatuses))).length)).sum ∧
    (redeem_loop codes fids statusOf).2.1 =
      ((pySorted strLe codes).map (fun code => ((pySorted strLe fids).filter
        (fun fid => !decide (statusOf code fid ∈ okStatuses))).length)).sum
    := by
  rcases redeemOuter statusOf (pySorted strLe fids) (pySorted strLe codes)
    (0, 0, []) with ⟨hOk, hFail, hLines⟩
  dsimp only at hOk hFail hLines
  simp only [List.length_nil] at hLines
  have hsum : ∀ cl : List String,
      (cl.map (fun code => ((pySorted strLe fids).filter
        (fun fid => decide (statusOf code fid ∈ okStatuses))).length)).sum +
      (cl.map (fun code => ((pySorted strLe fids).filter
        (fun fid => !decide (statusOf code fid ∈ okStatuses))).length)).sum =
      cl.length * (pySorted strLe fids).length := by
    intro cl
    induction cl with
    | nil => simp
    | cons c cs ih =>
      rw [List.map_cons, List.map_cons, List.sum_cons, List.sum_cons,
        List.length_cons, Nat.succ_mul]
      have := filterSplit
        (fun fid => decide (statusOf c fid ∈ okStatuses)) (pySorted strLe fids)
      omega
  unfold redeem_loop
  refine ⟨?_, ?_, ?_, ?_⟩
  · rw [hOk, hFail]
    have := hsum (pySorted strLe codes)
    rw [length_pySorted, length_pySorted] at this
    omega
  · rw [hLines, length_pySorted, length_pySorted]; omega
  · rw [hOk]; omega
  · rw [hFail]; omega

theorem data_foldl_append :
    ∀ (l : List String) (acc : String),
      (l.foldl (fun r s => r ++ s) acc).data =
        acc.data ++ (l.map String.data).flatten := by
  intro l
  induction l with
  | nil => intro acc; simp
  | cons s rest ih =>
    intro acc
    rw [List.foldl_cons, ih (acc ++ s)]
    simp [String.data_append, List.append_assoc]

theorem chunk1900Fuel_flatten :
    ∀ (fuel : Nat) (cs : List Char), cs.length ≤ fuel →
      (chunk1900Fuel fuel cs).flatten = cs := by
  intro fuel
  induction fuel with
  | zero =>
    intro cs h
    have : cs = [] := List.eq_nil_of_length_eq_zero (by omega)
    subst this; rfl
  | succ n ih =>
    intro cs h
    cases cs with
    | nil => rfl
    | cons c rest =>
      show ((c :: rest).take 1900 :: chunk1900Fuel n ((c :: rest).drop 1900)).flatten = c :: rest
      rw [List.flatten_cons]
      rw [ih ((c :: rest).drop 1900) (by
        simp only [List.length_drop, List.length_cons]
        simp only [List.length_cons] at h
        omega)]
      exact List.take_append_drop 1900 (c :: rest)

theorem chunk1900Fuel_short :
    ∀ (fuel : Nat) (cs : List Char) (ch : List Char),
      ch ∈ chunk1900Fuel fuel cs → ch.length ≤ 1900 := by
  intro fuel
  induction fuel with
  | zero => intro cs ch h; simp [chunk1900Fuel] at h
  | succ n ih =>
    intro cs ch h
    cases cs with
    | nil => simp [chunk1900Fuel] at h
    | cons c rest =>
      rcases List.mem_cons.mp h with h1 | h1
      · subst h1
        exact List.length_take_le 1900 (c :: rest)
      · exact ih _ ch h1

/-- C9: `discord_post` posts nothing at all when `channel_id` or `content`
is empty; otherwise it posts consecutive chunks of at most 1900 characters
whose concatenation in order is exactly the original content. -/
theorem discord_post_spec (channel_id content : String) :
    (channel_id = "" ∨ content = "" →
      discord_post channel_id content = []) ∧
    (channel_id ≠ "" →
      concatStrings (discord_post channel_id content) = content) ∧
    (∀ chunk ∈ discord_post channel_id content, chunk.length ≤ 1900) := by
  refine ⟨?_, ?_, ?_⟩
  · intro h
    unfold discord_post
    rcases h with h | h <;> simp [h]
  · intro hch
    by_cases hco : content = ""
    · subst hco
      unfold discord_post concatStrings
      simp
    · unfold discord_post
      rw [if_neg (by simp [hch, hco])]
      apply stringExt
      unfold concatStrings
      rw [data_foldl_append]
      show [] ++ (((chunk1900Fuel content.data.length content.data).map
        String.mk).map String.data).flatten = content.data
      rw [List.nil_append, List.map_map]
      rw [show (String.data ∘ String.mk) = @id (List Char) from rfl,
        List.map_id]
      exact chunk1900Fuel_flatten _ _ (le_refl _)
  · intro chunk hc
    unfold discord_post at hc
    by_cases h : (channel_id = "" || content = "") = true
    · rw [if_pos h] at hc; cases hc
    · rw [if_neg h] at hc
      rcases List.mem_map.mp hc with ⟨ch, hch, hmk⟩
      rw [← hmk]
      exact chunk1900Fuel_short _ _ ch hch

/-- Witness for C9 at a concrete channel and content. -/
theorem discord_post_spec_witness :
    concatStrings (discord_post ("chan") ("hello")) = "hello" ∧
    discord_post ("") ("hello") = [] :=
  ⟨(discord_post_spec ("chan") ("hello")).2.1 (by decide),
   (discord_post_spec ("") ("hello")).1 (Or.inl rfl)⟩

/-! ## C10 -/

theorem checkpoint_le :
    ∀ (ids : List Nat) (loaded : Nat), loaded ≤ checkpointFold loaded ids := by
  intro ids
  induction ids with
  | nil => intro loaded; exact le_refl _
  | cons i is ih =>
    intro loaded
    exact le_trans (Nat.le_max_left loaded i) (ih (max loaded i))

/-- C10: the checkpoint written back is the maximum of the loaded
checkpoint and all message ids read: it bounds the loaded value and every
id, and is attained by one of them — so a stored checkpoint is never
smaller than the one loaded. -/
theorem checkpoint_monotone (loaded : Nat) (ids : List Nat) :
    loaded ≤ checkpointFold loaded ids ∧
    (∀ i ∈ ids, i ≤ checkpointFold loaded ids) ∧
    (checkpointFold loaded ids = loaded ∨ checkpointFold loaded ids ∈ ids)
    := by
  refine ⟨checkpoint_le ids loaded, ?_, ?_⟩
  · intro i hi
    induction ids generalizing loaded with
    | nil => cases hi
    | cons j js ih =>
      rcases List.mem_cons.mp hi with h | h
      · subst h
        exact le_trans (Nat.le_max_right loaded i)
          (checkpoint_le js (max loaded i))
      · exact ih (max loaded j) h
  · induction ids generalizing loaded with
    | nil => exact Or.inl rfl
    | cons i is ih =>
      rcases ih (max loaded i) with h | h
      · rcases Nat.le_total loaded i with hle | hle
        · refine Or.inr ?_
          show checkpointFold (max loaded i) is ∈ i :: is
          rw [h, Nat.max_eq_right hle]
          exact List.mem_cons_self i is
        · refine Or.inl ?_
          show checkpointFold (max loaded i) is = loaded
          rw [h, Nat.max_eq_left hle]
      · exact Or.inr (List.mem_cons_of_mem i h)

/-- Witness for C10 at concrete inputs. -/
theorem checkpoint_monotone_witness :
    (10 : Nat) ≤ checkpointFold 10 [3, 99, 7] ∧
    ((99 : Nat) ∈ [3, 99, 7] ∧ (99 : Nat) ≤ checkpointFold 10 [3, 99, 7]) :=
  ⟨(checkpoint_monotone 10 [3, 99, 7]).1,
   ⟨by decide, (checkpoint_monotone 10 [3, 99, 7]).2.1 99 (by decide)⟩⟩

